import Mathlib

/-!
Shallow embedding of the `cueball-resolver` package (files `src/backend.js`
and `src/resolver.js`) for checking its specification.

Conventions:
* JavaScript numeric values are modeled as integers (`Int`); every numeric
  value occurring in the program and its tests is an integer.
* The SHA-1/base64 digest of `Backend.getKey` is modeled as an injective
  function of the hashed byte stream (collision-resistance idealized, as the
  spec itself speaks of "overwhelming probability").
* `net.isIP` (Node) and `ipaddr.parse` (ipaddr.js 1.5.3) are modeled by one
  parser implementing the strict textual IP grammar of `inet_pton` (dotted
  quad with no leading zeros; IPv6 hex groups with a single optional `::`
  and an optional trailing embedded IPv4).  On every string accepted by
  `net.isIP` the two libraries agree on the parsed address, so a single
  parser is faithful for the domain that reaches `ipaddr.parse`.
-/

namespace Cueball

/-- JavaScript values that flow into the validation code: strings, numbers,
`undefined` and `null`. -/
inductive JsVal where
  | str (s : String)
  | num (n : Int)
  | undef
  | null
deriving DecidableEq, Repr

/-- Character of a single decimal digit (`0`–`9`). -/
def digitChar (d : Nat) : Char := Char.ofNat (48 + d)

/-- Fueled helper for `decDigits`; the fuel only bounds the recursion depth
and is irrelevant once it exceeds the argument. -/
def decDigitsAux (fuel : Nat) (n : Nat) : List Char :=
  match fuel with
  | 0 => []
  | fuel + 1 =>
    if n < 10 then [digitChar n]
    else decDigitsAux fuel (n / 10) ++ [digitChar (n % 10)]

/-- Decimal digit string of a natural number, as produced by JavaScript
`String(n)` for a non-negative integer. -/
def decDigits (n : Nat) : List Char := decDigitsAux (n + 1) n

/-- Decimal string of an integer, as produced by JavaScript `String(i)`. -/
def intRepr (i : Int) : List Char :=
  if i < 0 then '-' :: decDigits i.natAbs else decDigits i.natAbs

/-- Character of a single lowercase hexadecimal digit. -/
def hexDigitChar (d : Nat) : Char :=
  if d < 10 then digitChar d else Char.ofNat (87 + d)

/-- Fueled helper for `hexDigits`. -/
def hexDigitsAux (fuel : Nat) (n : Nat) : List Char :=
  match fuel with
  | 0 => []
  | fuel + 1 =>
    if n < 16 then [hexDigitChar n]
    else hexDigitsAux fuel (n / 16) ++ [hexDigitChar (n % 16)]

/-- Lowercase hexadecimal digit string of a natural number, as produced by
JavaScript `n.toString(16)` (used by ipaddr.js for IPv6 groups). -/
def hexDigits (n : Nat) : List Char := hexDigitsAux (n + 1) n

/-- Test for a decimal digit character. -/
def isDecC (c : Char) : Bool := 48 ≤ c.toNat && c.toNat ≤ 57

/-- Test for a hexadecimal digit character (either case). -/
def isHexC (c : Char) : Bool :=
  isDecC c || (97 ≤ c.toNat && c.toNat ≤ 102) || (65 ≤ c.toNat && c.toNat ≤ 70)

/-- Numeric value of a decimal digit character. -/
def decValC (c : Char) : Nat := c.toNat - 48

/-- Numeric value of a hexadecimal digit character. -/
def hexValC (c : Char) : Nat :=
  if 97 ≤ c.toNat then c.toNat - 87
  else if 65 ≤ c.toNat then c.toNat - 55
  else c.toNat - 48

/-- Value of a decimal digit string. -/
def decVal (cs : List Char) : Nat := cs.foldl (fun a c => 10 * a + decValC c) 0

/-- Value of a hexadecimal digit string. -/
def hexVal (cs : List Char) : Nat := cs.foldl (fun a c => 16 * a + hexValC c) 0

/-- One dotted-decimal octet as accepted by `inet_pton` (and hence
`net.isIP`): one to three decimal digits, no leading zero, value at most
255. -/
def parseOctet (cs : List Char) : Option Nat :=
  if cs ≠ [] ∧ cs.all isDecC ∧ (cs.length = 1 ∨ cs.head? ≠ some '0') ∧ decVal cs ≤ 255
  then some (decVal cs) else none

/-- Apply an option-valued function across a list, failing if any element
fails. -/
def mapOpt (f : α → Option β) : List α → Option (List β)
  | [] => some []
  | a :: rest =>
    match f a, mapOpt f rest with
    | some b, some bs => some (b :: bs)
    | _, _ => none

/-- Dotted-quad IPv4 literal: exactly four octets separated by `.`. -/
def parseIPv4 (cs : List Char) : Option (List Nat) :=
  let parts := cs.splitOn '.'
  if parts.length = 4 then mapOpt parseOctet parts else none

/-- One IPv6 group: one to four hexadecimal digits. -/
def parseHexGroup (cs : List Char) : Option Nat :=
  if cs ≠ [] ∧ cs.length ≤ 4 ∧ cs.all isHexC then some (hexVal cs) else none

/-- Parse a run of colon-separated parts whose final part may be an embedded
dotted-quad IPv4 (contributing two 16-bit groups), as `inet_pton` allows at
the end of an IPv6 literal. -/
def parseTailGroups : List (List Char) → Option (List Nat)
  | [] => some []
  | [p] =>
    match parseHexGroup p with
    | some g => some [g]
    | none =>
      match parseIPv4 p with
      | some [a, b, c, d] => some [a * 256 + b, c * 256 + d]
      | _ => none
  | p :: rest =>
    match parseHexGroup p, parseTailGroups rest with
    | some g, some gs => some (g :: gs)
    | _, _ => none

/-- Split a list of parts at the first empty part, returning the parts
before it and the parts after it. -/
def splitAtEmpty : List (List Char) → Option (List (List Char) × List (List Char))
  | [] => none
  | [] :: rest => some ([], rest)
  | p :: rest => (splitAtEmpty rest).map (fun lr => (p :: lr.1, lr.2))

/-- Groups standing right of a compressed run (`::xyz` or `a::xyz`): for a
trailing `::` the split leaves one empty part; otherwise all parts must be
nonempty and are parsed as tail groups. -/
def parseRightGroups (right : List (List Char)) : Option (List Nat) :=
  if right = [[]] then some []
  else if right ≠ [] ∧ right.all (fun p => ¬p.isEmpty) then
    parseTailGroups right
  else none

/-- Literal beginning with `::`: `rest` holds the parts after the two
leading empties.  The bare literal `::` leaves one further empty part. -/
def parseAfterDoubleColon (rest : List (List Char)) : Option (List Nat) :=
  if rest = [[]] then some (List.replicate 8 0)
  else if rest ≠ [] ∧ rest.all (fun p => ¬p.isEmpty) then
    match parseTailGroups rest with
    | some rg =>
      if rg.length ≤ 7 then some (List.replicate (8 - rg.length) 0 ++ rg)
      else none
    | none => none
  else none

/-- Literal of the shape `left::right` (or trailing `left::`) with a
nonempty `left`: hex groups left of the compression, tail groups right of
it, the `::` standing for at least one zero group. -/
def parseMidCompressed (left right : List (List Char)) : Option (List Nat) :=
  match mapOpt parseHexGroup left with
  | none => none
  | some lg =>
    match parseRightGroups right with
    | none => none
    | some rg =>
      if lg.length + rg.length ≤ 7 then
        some (lg ++ List.replicate (8 - lg.length - rg.length) 0 ++ rg)
      else none

/-- Dispatch on what stands left of the first empty part: an empty `left`
means the literal begins with `:`, where only a leading `::` is legal; a
nonempty `left` is the `left::...` shape. -/
def parseCompressedSplit (left right : List (List Char)) : Option (List Nat) :=
  if left.isEmpty then
    match right with
    | [] :: rest => parseAfterDoubleColon rest
    | _ => none
  else parseMidCompressed left right

/-- IPv6 literal as accepted by `inet_pton`: eight hex groups, or a single
`::` standing for one or more zero groups, with an optional trailing
embedded IPv4.  Splitting the character list on `:` turns `::` into a run of
empty parts, which this function analyzes. -/
def parseIPv6 (cs : List Char) : Option (List Nat) :=
  let parts := cs.splitOn ':'
  if parts.all (fun p => ¬p.isEmpty) then
    match parseTailGroups parts with
    | some gs => if gs.length = 8 then some gs else none
    | none => none
  else
    match splitAtEmpty parts with
    | none => none
    | some (left, right) => parseCompressedSplit left right

/-- Parsed IP address: four IPv4 octets or eight IPv6 groups. -/
inductive IpAddr where
  | v4 (octets : List Nat)
  | v6 (groups : List Nat)
deriving DecidableEq, Repr

/-- Parse an IP literal; `some` exactly when Node's `net.isIP` is nonzero. -/
def parseIP (s : String) : Option IpAddr :=
  match parseIPv4 s.data with
  | some os => some (.v4 os)
  | none => (parseIPv6 s.data).map .v6

/-- Interleave a separator character between parts. -/
def joinSep (sep : Char) : List (List Char) → List Char
  | [] => []
  | [p] => p
  | p :: rest => p ++ sep :: joinSep sep rest

/-- Canonical string of a parsed address: for IPv4, `ipaddr.js`'s
`toString` (dotted decimal); for IPv6, `toNormalizedString` (lowercase hex
groups without zero compression), as selected in `Backend.getKey`. -/
def normalizeIp : IpAddr → List Char
  | .v4 os => joinSep '.' (os.map decDigits)
  | .v6 gs => joinSep ':' (gs.map hexDigits)

/-- Service descriptor `{ name, address, port }` built by the `Backend`
constructor. -/
structure Service where
  name : String
  address : String
  port : Int
deriving DecidableEq, Repr

/-- Backend value: a service descriptor plus its derived identity key. -/
structure Backend where
  service : Service
  key : String
deriving DecidableEq, Repr

/-- Model of `crypto.createHash('sha1').update(...).digest('base64')`:
idealized as an injective function of the hashed byte stream. -/
def sha1Base64 (input : List Char) : String := String.mk input

/-- Byte stream hashed by `Backend.getKey`:
`name || '||' || String(port) || '||' || canonicalAddress`. -/
def hashInput (svc : Service) (canon : List Char) : List Char :=
  svc.name.data ++ '|' :: '|' :: (intRepr svc.port ++ '|' :: '|' :: canon)

/-- Key computed by `Backend.getKey` for a service descriptor carrying no
key yet; `none` when the address does not parse (where the JS code would
throw from `ipaddr.parse`). -/
def computeKey (svc : Service) : Option String :=
  (parseIP svc.address).map (fun ip => sha1Base64 (hashInput svc (normalizeIp ip)))

/-- Model of `Backend.getKey(backend)` on an already-built backend: a
truthy `key` field (a nonempty string) is returned verbatim, otherwise the
hash is computed. -/
def Backend.getKeyOf (b : Backend) : String :=
  if b.key = "" then (computeKey b.service).getD "" else b.key

/-- Validation failures raised by the chai asserts (the spec's
`ValidationError`). -/
inductive ValidationError where
  | addressNotString
  | addressNotIp
  | portNotNumber
deriving DecidableEq, Repr

/-- Model of the `Backend` constructor: asserts the address is a string,
then a syntactically valid IP literal, then that the port is a number;
builds the service descriptor with `name = address:port` and derives the
key. -/
def Backend.construct (address : JsVal) (port : JsVal) : Except ValidationError Backend :=
  match address with
  | .str a =>
    match parseIP a with
    | some ip =>
      match port with
      | .num p =>
        let svc : Service := ⟨a ++ ":" ++ String.mk (intRepr p), a, p⟩
        .ok ⟨svc, sha1Base64 (hashInput svc (normalizeIp ip))⟩
      | _ => .error .portNotNumber
    | none => .error .addressNotIp
  | _ => .error .addressNotString

/-! ## Resolver state machine (`src/resolver.js`)

The resolver is a mooremachine FSM.  Event emission is synchronous: the
handlers registered by the current state's entry function run during
`emit`, and `gotoState` synchronously runs the new state's entry function
and then emits `stateChanged`.  `setImmediate` callbacks and
`stateHandle.immediate` callbacks are modeled as a FIFO list of pending
tasks; an environment step runs the task at the head of the list.
-/

/-- FSM states of the resolver (the `STATE` table). -/
inductive FsmState where
  | stopped
  | starting
  | running
  | stopping
  | failed
deriving DecidableEq, Repr

/-- Observable events emitted on the resolver (the `EVENT` table plus the
mooremachine `stateChanged` notification). -/
inductive Event where
  | startAsserted
  | stopAsserted
  | added (key : String) (service : Service)
  | removed (key : String) (service : Service)
  | updated
  | stateChanged (s : FsmState)
deriving DecidableEq, Repr

/-- Queue operations (`'add'` / `'remove'`). -/
inductive Op where
  | add
  | remove
deriving DecidableEq, Repr

/-- Entry of the pending queue: `{ key, operation, backend }`. -/
structure QueueItem where
  key : String
  operation : Op
  backend : Backend
deriving DecidableEq, Repr

/-- Insertion-ordered map, mirroring a JavaScript `Map`: `set` of a present
key updates the value in place keeping its position, otherwise it appends;
`delete` removes the entry. -/
abbrev MapL := List (String × Backend)

/-- JavaScript `Map.prototype.set`. -/
def mapSet (m : MapL) (k : String) (v : Backend) : MapL :=
  if m.any (fun p => p.1 = k) then
    m.map (fun p => if p.1 = k then (k, v) else p)
  else m ++ [(k, v)]

/-- JavaScript `Map.prototype.delete`. -/
def mapDelete (m : MapL) (k : String) : MapL :=
  m.filter (fun p => p.1 ≠ k)

/-- JavaScript `Map.prototype.has`. -/
def mapMem (m : MapL) (k : String) : Bool :=
  m.any (fun p => p.1 = k)

/-- JavaScript `Array.from(map.values())`, insertion order. -/
def mapValues (m : MapL) : List Backend := m.map (fun p => p.2)

/-- Mutable fields of a `Resolver` instance. -/
structure ResolverState where
  state : FsmState
  defaultPort : Int
  backends : MapL
  queue : List QueueItem
  lastError : Option String
deriving DecidableEq, Repr

/-- Deferred callbacks: the `setImmediate` in `start()`, the `setImmediate`
in `resetBackends()`, and the `stateHandle.immediate` of
`state_stopping`. -/
inductive Task where
  | startFlush
  | resetTask (backends : List (Sum Backend (JsVal × JsVal)))
  | gotoStopped
deriving DecidableEq, Repr

/-- World: the resolver object, the FIFO list of pending deferred tasks,
and the trace of events emitted so far. -/
structure World where
  r : ResolverState
  tasks : List Task
  trace : List Event
deriving DecidableEq, Repr

/-- Input to `addBackend` / `removeBackend` / the constructor: either an
already-constructed `Backend` instance or a raw `{ address, port }`
descriptor. -/
abbrev BackendInput := Sum Backend (JsVal × JsVal)

/-- Model of `_createBackend`: a `Backend` instance passes through; a raw
descriptor gets `defaultPort` substituted for a missing (`undefined` or
`null`) port and is passed to the `Backend` constructor. -/
def createBackend (defaultPort : Int) : BackendInput → Except ValidationError Backend
  | .inl b => .ok b
  | .inr (address, port) =>
    let port' := match port with
      | .undef => JsVal.num defaultPort
      | .null => JsVal.num defaultPort
      | p => p
    Backend.construct address port'

/-- Append one emitted event to the trace (events with no FSM listener in
any state: `added`, `removed`). -/
def emitPlain (e : Event) (w : World) : World :=
  { w with trace := w.trace ++ [e] }

/-- Drain loop of `state_running`: shift queue items in FIFO order, calling
`addBackend` / `removeBackend` on each.  The resolver is in `running` while
the loop runs, so each call applies directly to the map and emits
`added`/`removed` followed by `updated` (no state listens to these during
the drain), and never appends to the queue — hence the loop is structural
recursion over the initial queue. -/
def drainRec (m : MapL) : List QueueItem → MapL × List Event
  | [] => (m, [])
  | it :: rest =>
    match it.operation with
    | .add =>
      let res := drainRec (mapSet m it.backend.key it.backend) rest
      (res.1, .added it.backend.key it.backend.service :: .updated :: res.2)
    | .remove =>
      let res := drainRec (mapDelete m it.backend.key) rest
      (res.1, .removed it.backend.key it.backend.service :: .updated :: res.2)

/-- Entry into `running` (`state_running`): mooremachine sets the state,
runs the entry function — which drains the pending queue — and then emits
`stateChanged`. -/
def enterRunning (w : World) : World :=
  let res := drainRec w.r.backends w.r.queue
  { w with
      r := { w.r with state := .running, backends := res.1, queue := [] },
      trace := w.trace ++ res.2 ++ [.stateChanged .running] }

/-- Entry into `starting` (`state_starting`): registers the `updated`
listener only. -/
def enterStarting (w : World) : World :=
  { w with
      r := { w.r with state := .starting },
      trace := w.trace ++ [.stateChanged .starting] }

/-- Entry into `stopping` (`state_stopping`): schedules an immediate
transition to `stopped`. -/
def enterStopping (w : World) : World :=
  { w with
      r := { w.r with state := .stopping },
      tasks := w.tasks ++ [.gotoStopped],
      trace := w.trace ++ [.stateChanged .stopping] }

/-- Entry into `stopped` (`state_stopped`): registers the `startAsserted`
listener only. -/
def enterStopped (w : World) : World :=
  { w with
      r := { w.r with state := .stopped },
      trace := w.trace ++ [.stateChanged .stopped] }

/-- Emit `updated`: `state_starting` and `state_failed` listen for it and
go to `running`; every other state ignores it. -/
def emitUpdated (w : World) : World :=
  let w' := { w with trace := w.trace ++ [Event.updated] }
  match w.r.state with
  | .starting => enterRunning w'
  | .failed => enterRunning w'
  | _ => w'

/-- Emit `startAsserted`: only `state_stopped` listens, going to
`starting`. -/
def emitStartAsserted (w : World) : World :=
  let w' := { w with trace := w.trace ++ [Event.startAsserted] }
  match w.r.state with
  | .stopped => enterStarting w'
  | _ => w'

/-- Emit `stopAsserted`: `state_running` and `state_failed` listen, going
to `stopping`; `starting` and `stopping` have no listener for it. -/
def emitStopAsserted (w : World) : World :=
  let w' := { w with trace := w.trace ++ [Event.stopAsserted] }
  match w.r.state with
  | .running => enterStopping w'
  | .failed => enterStopping w'
  | _ => w'

/-- Model of `addBackend`: resolve the input via `_createBackend` (a
validation failure propagates to the caller and leaves the resolver
untouched); in `running`, set the key in the map and emit `added` then
`updated`; otherwise push an `add` entry onto the queue.  Returns the
resolved backend. -/
def addBackendR (w : World) (input : BackendInput) :
    Except ValidationError Backend × World :=
  match createBackend w.r.defaultPort input with
  | .error e => (.error e, w)
  | .ok b =>
    if w.r.state = .running then
      let w1 := { w with r := { w.r with backends := mapSet w.r.backends b.key b } }
      (.ok b, emitUpdated (emitPlain (.added b.key b.service) w1))
    else
      (.ok b, { w with r := { w.r with queue := w.r.queue ++ [⟨b.key, .add, b⟩] } })

/-- Model of `removeBackend`: like `addBackendR` with `delete`, `removed`
and a `remove` queue entry. -/
def removeBackendR (w : World) (input : BackendInput) :
    Except ValidationError Backend × World :=
  match createBackend w.r.defaultPort input with
  | .error e => (.error e, w)
  | .ok b =>
    if w.r.state = .running then
      let w1 := { w with r := { w.r with backends := mapDelete w.r.backends b.key } }
      (.ok b, emitUpdated (emitPlain (.removed b.key b.service) w1))
    else
      (.ok b, { w with r := { w.r with queue := w.r.queue ++ [⟨b.key, .remove, b⟩] } })

/-- Validation performed by `_loadBackends` on each element before calling
`addBackend`: a `Backend` instance passes; a raw descriptor must have a
string address and a numeric or absent port. -/
def checkRaw : BackendInput → Except ValidationError Unit
  | .inl _ => .ok ()
  | .inr (address, port) =>
    match address with
    | .str _ =>
      match port with
      | .num _ => .ok ()
      | .undef => .ok ()
      | .null => .ok ()
      | _ => .error .portNotNumber
    | _ => .error .addressNotString

/-- Model of `_loadBackends`: validate each element, then `addBackend` it.
An assertion failure aborts the iteration and propagates. -/
def loadBackendsR (w : World) : List BackendInput → Except ValidationError World
  | [] => .ok w
  | d :: rest =>
    match checkRaw d with
    | .error e => .error e
    | .ok _ =>
      match addBackendR w d with
      | (.error e, _) => .error e
      | (.ok _, w') => loadBackendsR w' rest

/-- Model of the `Resolver` constructor: initial state `stopped`, empty
map and queue, then `_loadBackends` on the initial backend list. -/
def mkResolver (defaultPort : Int) (backends : List BackendInput) :
    Except ValidationError World :=
  loadBackendsR
    { r := { state := .stopped, defaultPort := defaultPort, backends := [],
             queue := [], lastError := none },
      tasks := [], trace := [] }
    backends

/-- Model of `start()`: asserts the state is `stopped` (the spec's
`InvalidStateError`, leaving the resolver untouched), emits
`startAsserted`, then schedules the backend flush on the next turn. -/
def startR (w : World) : Except Unit Unit × World :=
  if w.r.state = .stopped then
    let w1 := emitStartAsserted w
    (.ok (), { w1 with tasks := w1.tasks ++ [.startFlush] })
  else (.error (), w)

/-- Model of `stop()`: asserts the state is not `stopped`, then emits
`stopAsserted`. -/
def stopR (w : World) : Except Unit Unit × World :=
  if w.r.state = .stopped then (.error (), w)
  else (.ok (), emitStopAsserted w)

/-- Model of `resetBackends(newList)`: clears the queue synchronously and
schedules the clear-then-reload work on the next turn. -/
def resetBackendsR (w : World) (backends : List BackendInput) : World :=
  { w with
      r := { w.r with queue := [] },
      tasks := w.tasks ++ [.resetTask backends] }

/-- Model of `list()`. -/
def listR (w : World) : List Backend := mapValues w.r.backends

/-- Model of `count()`. -/
def countR (w : World) : Nat := w.r.backends.length

/-- Model of `getLastError()`. -/
def getLastErrorR (w : World) : Option String := w.r.lastError

/-- Call `addBackend` on each element of a list of `Backend` instances (the
`forEach(addBackend)` loops); instances never fail validation. -/
def addAll (w : World) : List Backend → World
  | [] => w
  | b :: rest => addAll (addBackendR w (.inl b)).2 rest

/-- Call `removeBackend` on each element of a list of `Backend` instances
(the `forEach(removeBackend)` loop of the reset task).  The JS code
iterates the live map; in `running` each call deletes exactly the entry
being visited, so the iteration visits precisely the values present when
the loop began. -/
def removeAll (w : World) : List Backend → World
  | [] => w
  | b :: rest => removeAll (removeBackendR w (.inl b)).2 rest

/-- Run one deferred task.  `startFlush` is the `setImmediate` body of
`start()`: re-add every backend currently in the map, then emit `updated`.
`resetTask` is the `setImmediate` body of `resetBackends()`: remove every
current backend, `_loadBackends` the new list, then re-add every backend
then in the map.  `gotoStopped` is the `stateHandle.immediate` of
`state_stopping`. -/
def runTaskR (t : Task) (w : World) : Except ValidationError World :=
  match t with
  | .startFlush =>
    .ok (emitUpdated (addAll w (mapValues w.r.backends)))
  | .resetTask l =>
    let w1 := removeAll w (mapValues w.r.backends)
    match loadBackendsR w1 l with
    | .error e => .error e
    | .ok w2 => .ok (addAll w2 (mapValues w2.r.backends))
  | .gotoStopped =>
    .ok (if w.r.state = .stopping then enterStopped w else w)

/-- External delivery of an `updated` event on the emitter (any consumer
may call `resolver.emit('updated')`); used to exercise the `state_failed`
listener. -/
def deliverUpdated (w : World) : World := emitUpdated w

/-- Labels for the observable steps an environment can take: the five
public calls of the claims plus running the next deferred task. -/
inductive Act where
  | startA
  | stopA
  | addA (d : BackendInput)
  | removeA (d : BackendInput)
  | resetA (l : List BackendInput)
  | taskA
deriving DecidableEq

/-- Execute one step; `none` when the call raises or no task is pending. -/
def stepA (w : World) : Act → Option World
  | .startA => match startR w with
    | (.ok _, w') => some w'
    | (.error _, _) => none
  | .stopA => match stopR w with
    | (.ok _, w') => some w'
    | (.error _, _) => none
  | .addA d => match addBackendR w d with
    | (.ok _, w') => some w'
    | (.error _, _) => none
  | .removeA d => match removeBackendR w d with
    | (.ok _, w') => some w'
    | (.error _, _) => none
  | .resetA l => some (resetBackendsR w l)
  | .taskA => match w.tasks with
    | [] => none
    | t :: ts => (runTaskR t { w with tasks := ts }).toOption

/-- Execute a sequence of steps. -/
def runActs (w : World) : List Act → Option World
  | [] => some w
  | a :: rest => match stepA w a with
    | some w' => runActs w' rest
    | none => none

/-! ## Lemmas about digit strings -/

lemma charOfNat_toNat {n : Nat} (h : n < 55296) : (Char.ofNat n).toNat = n := by
  have hv : n.isValidChar := Or.inl h
  simp [Char.ofNat, hv, Char.ofNatAux, Char.toNat, UInt32.toNat]

lemma digitChar_toNat {d : Nat} (h : d < 10) : (digitChar d).toNat = 48 + d := by
  unfold digitChar
  exact charOfNat_toNat (by omega)

lemma decValC_digitChar {d : Nat} (h : d < 10) : decValC (digitChar d) = d := by
  unfold decValC
  rw [digitChar_toNat h]
  omega

lemma isDecC_digitChar {d : Nat} (h : d < 10) : isDecC (digitChar d) = true := by
  unfold isDecC
  rw [digitChar_toNat h]
  simp
  omega

lemma decDigitsAux_congr : ∀ {f1 f2 n : Nat}, n < f1 → n < f2 →
    decDigitsAux f1 n = decDigitsAux f2 n := by
  intro f1
  induction f1 with
  | zero => intro f2 n h1 h2; omega
  | succ k ih =>
    intro f2 n h1 h2
    cases f2 with
    | zero => omega
    | succ k2 =>
      show decDigitsAux (k + 1) n = decDigitsAux (k2 + 1) n
      unfold decDigitsAux
      by_cases h : n < 10
      · rw [if_pos h, if_pos h]
      · rw [if_neg h, if_neg h]
        congr 1
        exact ih (by omega) (by omega)

lemma decDigits_eq (n : Nat) :
    decDigits n = if n < 10 then [digitChar n]
      else decDigits (n / 10) ++ [digitChar (n % 10)] := by
  show decDigitsAux (n + 1) n = _
  unfold decDigitsAux
  by_cases h : n < 10
  · rw [if_pos h, if_pos h]
  · rw [if_neg h, if_neg h]
    congr 1
    exact decDigitsAux_congr (by omega) (by omega)

lemma decVal_append (l : List Char) (c : Char) :
    decVal (l ++ [c]) = 10 * decVal l + decValC c := by
  unfold decVal
  rw [List.foldl_append]
  rfl

lemma decVal_decDigits (n : Nat) : decVal (decDigits n) = n := by
  induction n using Nat.strong_induction_on with
  | _ n ih =>
    rw [decDigits_eq]
    by_cases h : n < 10
    · rw [if_pos h]
      show decVal [digitChar n] = n
      have : decVal [digitChar n] = decValC (digitChar n) := by
        simp [decVal]
      rw [this, decValC_digitChar h]
    · rw [if_neg h, decVal_append, ih (n / 10) (Nat.div_lt_self (by omega) (by omega)),
        decValC_digitChar (Nat.mod_lt n (by omega))]
      omega

lemma decDigits_inj {m n : Nat} (h : decDigits m = decDigits n) : m = n := by
  have := congrArg decVal h
  rwa [decVal_decDigits, decVal_decDigits] at this

lemma decDigits_all {n : Nat} : ∀ c ∈ decDigits n, isDecC c := by
  induction n using Nat.strong_induction_on with
  | _ n ih =>
    rw [decDigits_eq]
    by_cases h : n < 10
    · rw [if_pos h]
      intro c hc
      rw [List.mem_singleton] at hc
      subst hc
      exact isDecC_digitChar h
    · rw [if_neg h]
      intro c hc
      rcases List.mem_append.mp hc with h1 | h1
      · exact ih (n / 10) (Nat.div_lt_self (by omega) (by omega)) c h1
      · rw [List.mem_singleton] at h1
        subst h1
        exact isDecC_digitChar (Nat.mod_lt n (by omega))

lemma decDigits_ne_nil (n : Nat) : decDigits n ≠ [] := by
  rw [decDigits_eq]
  by_cases h : n < 10 <;> simp [h]

lemma intRepr_all {i : Int} : ∀ c ∈ intRepr i, isDecC c ∨ c = '-' := by
  unfold intRepr
  by_cases h : i < 0
  · rw [if_pos h]
    intro c hc
    rcases List.mem_cons.mp hc with h1 | h1
    · right; exact h1
    · left; exact decDigits_all c h1
  · rw [if_neg h]
    intro c hc
    left
    exact decDigits_all c hc

lemma dash_not_mem_decDigits (n : Nat) : '-' ∉ decDigits n := by
  intro hm
  have hd := decDigits_all '-' hm
  simp [isDecC] at hd

lemma intRepr_inj {i j : Int} (h : intRepr i = intRepr j) : i = j := by
  unfold intRepr at h
  by_cases hi : i < 0 <;> by_cases hj : j < 0
  · rw [if_pos hi, if_pos hj] at h
    have h2 : decDigits i.natAbs = decDigits j.natAbs := by
      injection h
    have := decDigits_inj h2
    omega
  · exfalso
    rw [if_pos hi, if_neg hj] at h
    exact dash_not_mem_decDigits j.natAbs (h ▸ List.mem_cons_self '-' _)
  · exfalso
    rw [if_neg hi, if_pos hj] at h
    exact dash_not_mem_decDigits i.natAbs (h.symm ▸ List.mem_cons_self '-' _)
  · rw [if_neg hi, if_neg hj] at h
    have := decDigits_inj h
    omega

/-! ## The `||` separator uniquely delimits the hash input components -/

lemma sep_split {a a' c c' : List Char} (ha : '|' ∉ a) (ha' : '|' ∉ a')
    (h : a ++ '|' :: '|' :: c = a' ++ '|' :: '|' :: c') : a = a' ∧ c = c' := by
  induction a generalizing a' with
  | nil =>
    cases a' with
    | nil => simpa using h
    | cons y ys =>
      exfalso
      rw [List.nil_append, List.cons_append] at h
      have : y = '|' := (List.cons.injEq _ _ _ _ ▸ h).1.symm
      exact ha' (this ▸ List.mem_cons_self y ys)
  | cons x xs ih =>
    cases a' with
    | nil =>
      exfalso
      rw [List.nil_append, List.cons_append] at h
      have : x = '|' := (List.cons.injEq _ _ _ _ ▸ h).1
      exact ha (this ▸ List.mem_cons_self x xs)
    | cons y ys =>
      rw [List.cons_append, List.cons_append, List.cons.injEq] at h
      obtain ⟨hxy, htl⟩ := h
      have hxs : '|' ∉ xs := fun hm => ha (List.mem_cons_of_mem _ hm)
      have hys : '|' ∉ ys := fun hm => ha' (List.mem_cons_of_mem _ hm)
      obtain ⟨h1, h2⟩ := ih hxs hys htl
      exact ⟨by rw [hxy, h1], h2⟩

/-! ## Character sets of accepted IP literals -/

lemma mem_intercalate_single {α : Type} [DecidableEq α] {x c : α} {parts : List (List α)}
    (h : c ∈ [x].intercalate parts) : c = x ∨ ∃ p ∈ parts, c ∈ p := by
  induction parts with
  | nil => simp [List.intercalate, List.intersperse] at h
  | cons p rest ih =>
    cases rest with
    | nil =>
      simp only [List.intercalate, List.intersperse, List.flatten] at h
      rcases List.mem_append.mp h with h1 | h1
      · exact Or.inr ⟨p, List.mem_cons_self p [], h1⟩
      · simp at h1
    | cons q rest2 =>
      simp only [List.intercalate, List.intersperse_cons_cons, List.flatten] at h
      rcases List.mem_append.mp h with h1 | h1
      · exact Or.inr ⟨p, List.mem_cons_self _ _, h1⟩
      rcases List.mem_append.mp h1 with h2 | h2
      · exact Or.inl (List.mem_singleton.mp h2)
      · rcases ih (by simpa [List.intercalate] using h2) with h3 | ⟨p', hp', hcp'⟩
        · exact Or.inl h3
        · exact Or.inr ⟨p', List.mem_cons_of_mem _ hp', hcp'⟩

lemma mapOpt_forall {α β : Type} {f : α → Option β} {l : List α} {l' : List β}
    (h : mapOpt f l = some l') : ∀ a ∈ l, ∃ b, f a = some b := by
  induction l generalizing l' with
  | nil => intro a ha; simp at ha
  | cons a0 rest ih =>
    intro a ha
    unfold mapOpt at h
    cases hf : f a0 with
    | none => rw [hf] at h; simp at h
    | some b0 =>
      rw [hf] at h
      cases hr : mapOpt f rest with
      | none => rw [hr] at h; simp at h
      | some bs =>
        rcases List.mem_cons.mp ha with h1 | h1
        · exact ⟨b0, h1 ▸ hf⟩
        · exact ih hr a h1

lemma parseOctet_charset {cs : List Char} {v : Nat} (h : parseOctet cs = some v) :
    ∀ c ∈ cs, isDecC c := by
  unfold parseOctet at h
  split at h
  · next hc =>
    intro c hm
    exact List.all_eq_true.mp hc.2.1 c hm
  · exact absurd h (by simp)

lemma parseHexGroup_charset {cs : List Char} {v : Nat} (h : parseHexGroup cs = some v) :
    ∀ c ∈ cs, isHexC c := by
  unfold parseHexGroup at h
  split at h
  · next hc =>
    intro c hm
    exact List.all_eq_true.mp hc.2.2 c hm
  · exact absurd h (by simp)

lemma isDecC_isHexC {c : Char} (h : isDecC c) : isHexC c = true := by
  unfold isHexC
  rw [h]
  rfl

lemma parseIPv4_charset {cs : List Char} {v : List Nat} (h : parseIPv4 cs = some v) :
    ∀ c ∈ cs, isDecC c ∨ c = '.' := by
  replace h : (if (cs.splitOn '.').length = 4 then mapOpt parseOctet (cs.splitOn '.')
      else none) = some v := h
  split at h
  · next _hl =>
    intro c hc
    have hmem : c ∈ ['.'].intercalate (cs.splitOn '.') := by
      rw [List.intercalate_splitOn]
      exact hc
    rcases mem_intercalate_single hmem with h1 | ⟨p, hp, hcp⟩
    · exact Or.inr h1
    · obtain ⟨w, hw⟩ := mapOpt_forall h p hp
      exact Or.inl (parseOctet_charset hw c hcp)
  · exact absurd h (by simp)

lemma parseTailGroups_charset {ps : List (List Char)} {gs : List Nat}
    (h : parseTailGroups ps = some gs) : ∀ p ∈ ps, ∀ c ∈ p, isHexC c ∨ c = '.' := by
  induction ps generalizing gs with
  | nil => intro p hp; simp at hp
  | cons p0 rest ih =>
    intro p hp c hc
    cases rest with
    | nil =>
      rw [List.mem_singleton] at hp
      subst hp
      unfold parseTailGroups at h
      cases hg : parseHexGroup p with
      | some g => exact Or.inl (parseHexGroup_charset hg c hc)
      | none =>
        rw [hg] at h
        cases h4 : parseIPv4 p with
        | none => rw [h4] at h; simp at h
        | some os =>
          rcases parseIPv4_charset h4 c hc with hd | hd
          · exact Or.inl (isDecC_isHexC hd)
          · exact Or.inr hd
    | cons q rest2 =>
      unfold parseTailGroups at h
      cases hg : parseHexGroup p0 with
      | none => rw [hg] at h; simp at h
      | some g =>
        rw [hg] at h
        cases hr : parseTailGroups (q :: rest2) with
        | none => rw [hr] at h; simp at h
        | some gs2 =>
          rcases List.mem_cons.mp hp with h1 | h1
          · subst h1
            exact Or.inl (parseHexGroup_charset hg c hc)
          · exact ih hr p h1 c hc

lemma splitAtEmpty_eq {ps l r : List (List Char)} (h : splitAtEmpty ps = some (l, r)) :
    ps = l ++ [] :: r := by
  induction ps generalizing l r with
  | nil => simp [splitAtEmpty] at h
  | cons p0 rest ih =>
    cases p0 with
    | nil =>
      unfold splitAtEmpty at h
      injection h with h'
      injection h' with h1 h2
      subst h1; subst h2
      rfl
    | cons c cs =>
      unfold splitAtEmpty at h
      cases hs : splitAtEmpty rest with
      | none => rw [hs] at h; simp at h
      | some lr =>
        obtain ⟨l1, r1⟩ := lr
        rw [hs] at h
        replace h : some ((c :: cs) :: l1, r1) = some (l, r) := h
        injection h with h'
        rw [Prod.mk.injEq] at h'
        obtain ⟨h1, h2⟩ := h'
        subst h1; subst h2
        simp [ih hs]

lemma parseRightGroups_charset {right : List (List Char)} {rg : List Nat}
    (h : parseRightGroups right = some rg) : ∀ p ∈ right, ∀ c ∈ p, isHexC c ∨ c = '.' := by
  unfold parseRightGroups at h
  by_cases h1 : right = [[]]
  · subst h1
    intro p hp c hc
    rw [List.mem_singleton] at hp
    subst hp
    simp at hc
  · rw [if_neg h1] at h
    split at h
    · exact parseTailGroups_charset h
    · exact absurd h (by simp)

lemma parseAfterDoubleColon_charset {rest : List (List Char)} {gs : List Nat}
    (h : parseAfterDoubleColon rest = some gs) : ∀ p ∈ rest, ∀ c ∈ p, isHexC c ∨ c = '.' := by
  unfold parseAfterDoubleColon at h
  by_cases h1 : rest = [[]]
  · subst h1
    intro p hp c hc
    rw [List.mem_singleton] at hp
    subst hp
    simp at hc
  · rw [if_neg h1] at h
    split at h
    · cases htg : parseTailGroups rest with
      | none => rw [htg] at h; simp at h
      | some rg => exact parseTailGroups_charset htg
    · exact absurd h (by simp)

lemma parseMidCompressed_charset {left right : List (List Char)} {gs : List Nat}
    (h : parseMidCompressed left right = some gs) :
    (∀ p ∈ left, ∀ c ∈ p, isHexC c ∨ c = '.') ∧
    (∀ p ∈ right, ∀ c ∈ p, isHexC c ∨ c = '.') := by
  unfold parseMidCompressed at h
  cases hlg : mapOpt parseHexGroup left with
  | none => rw [hlg] at h; simp at h
  | some lg =>
    rw [hlg] at h
    cases hrg : parseRightGroups right with
    | none => rw [hrg] at h; simp at h
    | some rg =>
      refine ⟨?_, parseRightGroups_charset hrg⟩
      intro p hp c hc
      obtain ⟨g, hg⟩ := mapOpt_forall hlg p hp
      exact Or.inl (parseHexGroup_charset hg c hc)

lemma parseCompressedSplit_charset {left right : List (List Char)} {gs : List Nat}
    (h : parseCompressedSplit left right = some gs) :
    ∀ p ∈ left ++ [] :: right, ∀ c ∈ p, isHexC c ∨ c = '.' := by
  unfold parseCompressedSplit at h
  by_cases hle : left.isEmpty
  · rw [if_pos hle] at h
    have hleft : left = [] := by
      cases left with
      | nil => rfl
      | cons a b => simp [List.isEmpty] at hle
    subst hleft
    cases right with
    | nil =>
      replace h : (none : Option (List Nat)) = some gs := h
      simp at h
    | cons r0 rest =>
      cases r0 with
      | cons a b =>
        replace h : (none : Option (List Nat)) = some gs := h
        simp at h
      | nil =>
        replace h : parseAfterDoubleColon rest = some gs := h
        intro p hp c hc
        simp only [List.nil_append, List.mem_cons] at hp
        rcases hp with h1 | h1 | h1
        · subst h1; simp at hc
        · subst h1; simp at hc
        · exact parseAfterDoubleColon_charset h p h1 c hc
  · rw [if_neg hle] at h
    obtain ⟨hL, hR⟩ := parseMidCompressed_charset h
    intro p hp c hc
    rcases List.mem_append.mp hp with h1 | h1
    · exact hL p h1 c hc
    · rcases List.mem_cons.mp h1 with h2 | h2
      · subst h2; simp at hc
      · exact hR p h2 c hc

lemma parseIPv6_parts {cs : List Char} {gs : List Nat} (h : parseIPv6 cs = some gs) :
    ∀ p ∈ cs.splitOn ':', ∀ c ∈ p, isHexC c ∨ c = '.' := by
  unfold parseIPv6 at h
  by_cases hall : (cs.splitOn ':').all (fun p => ¬p.isEmpty)
  · rw [if_pos hall] at h
    cases htg : parseTailGroups (cs.splitOn ':') with
    | none => rw [htg] at h; simp at h
    | some gs' => exact parseTailGroups_charset htg
  · rw [if_neg hall] at h
    cases hsp : splitAtEmpty (cs.splitOn ':') with
    | none => rw [hsp] at h; simp at h
    | some lr =>
      obtain ⟨left, right⟩ := lr
      rw [hsp] at h
      replace h : parseCompressedSplit left right = some gs := h
      have heq : cs.splitOn ':' = left ++ [] :: right := splitAtEmpty_eq hsp
      rw [heq]
      exact parseCompressedSplit_charset h

lemma parseIPv6_charset {cs : List Char} {gs : List Nat} (h : parseIPv6 cs = some gs) :
    ∀ c ∈ cs, isHexC c ∨ c = ':' ∨ c = '.' := by
  intro c hc
  have hmem : c ∈ [':'].intercalate (cs.splitOn ':') := by
    rw [List.intercalate_splitOn]
    exact hc
  rcases mem_intercalate_single hmem with h1 | ⟨p, hp, hcp⟩
  · exact Or.inr (Or.inl h1)
  · rcases parseIPv6_parts h p hp c hcp with h2 | h2
    · exact Or.inl h2
    · exact Or.inr (Or.inr h2)

/-- Every string accepted by the IP parser contains no `|` character. -/
lemma parseIP_barFree {s : String} {ip : IpAddr} (h : parseIP s = some ip) :
    '|' ∉ s.data := by
  intro hm
  unfold parseIP at h
  cases h4 : parseIPv4 s.data with
  | some os =>
    rcases parseIPv4_charset h4 '|' hm with h1 | h1
    · simp [isDecC] at h1
    · simp at h1
  | none =>
    rw [h4] at h
    cases h6 : parseIPv6 s.data with
    | none => rw [h6] at h; simp at h
    | some gs =>
      rcases parseIPv6_charset h6 '|' hm with h1 | h1 | h1
      · simp [isHexC, isDecC] at h1
      · simp at h1
      · simp at h1

/-! ## Structure of constructed backends and their keys -/

lemma construct_str_num {a : String} {p : Int} {b : Backend}
    (h : Backend.construct (.str a) (.num p) = .ok b) :
    ∃ ip, parseIP a = some ip ∧
      b = ⟨⟨a ++ ":" ++ String.mk (intRepr p), a, p⟩,
           sha1Base64 (hashInput ⟨a ++ ":" ++ String.mk (intRepr p), a, p⟩ (normalizeIp ip))⟩ := by
  replace h : (match parseIP a with
      | some ip =>
        let svc : Service := ⟨a ++ ":" ++ String.mk (intRepr p), a, p⟩
        Except.ok ⟨svc, sha1Base64 (hashInput svc (normalizeIp ip))⟩
      | none => Except.error ValidationError.addressNotIp) = Except.ok b := h
  cases hip : parseIP a with
  | none => rw [hip] at h; simp at h
  | some ip =>
    rw [hip] at h
    refine ⟨ip, rfl, ?_⟩
    injection h with h'
    exact h'.symm

lemma construct_str_eq (s : String) (port : JsVal) :
    Backend.construct (.str s) port = (match parseIP s with
      | some ip =>
        match port with
        | JsVal.num p =>
          let svc : Service := ⟨s ++ ":" ++ String.mk (intRepr p), s, p⟩
          Except.ok (Backend.mk svc (sha1Base64 (hashInput svc (normalizeIp ip))))
        | _ => Except.error ValidationError.portNotNumber
      | none => Except.error ValidationError.addressNotIp) := rfl

lemma name_data_eq (a : String) (p : Int) :
    (a ++ ":" ++ String.mk (intRepr p)).data = (a.data ++ [':']) ++ intRepr p := rfl

lemma name_barFree {a : String} {p : Int} {ip : IpAddr} (hip : parseIP a = some ip) :
    '|' ∉ (a ++ ":" ++ String.mk (intRepr p)).data := by
  rw [name_data_eq]
  intro hm
  rcases List.mem_append.mp hm with h1 | h1
  · rcases List.mem_append.mp h1 with h2 | h2
    · exact parseIP_barFree hip h2
    · simp at h2
  · rcases intRepr_all '|' h1 with h2 | h2
    · simp [isDecC] at h2
    · simp at h2

lemma intRepr_barFree (p : Int) : '|' ∉ intRepr p := by
  intro hm
  rcases intRepr_all '|' hm with h2 | h2
  · simp [isDecC] at h2
  · simp at h2

/-- Keys of two constructed backends agree exactly when the raw address
strings and the ports agree: the hash input is
`name || '||' || port || '||' || canonicalAddress` with
`name = address:port` embedding the raw address spelling, components free
of `|` and hence uniquely delimited. -/
lemma construct_key_eq_iff {a₁ a₂ : String} {p₁ p₂ : Int} {b₁ b₂ : Backend}
    (h₁ : Backend.construct (.str a₁) (.num p₁) = .ok b₁)
    (h₂ : Backend.construct (.str a₂) (.num p₂) = .ok b₂) :
    (b₁.key = b₂.key ↔ (a₁ = a₂ ∧ p₁ = p₂)) := by
  obtain ⟨ip₁, hip₁, hb₁⟩ := construct_str_num h₁
  obtain ⟨ip₂, hip₂, hb₂⟩ := construct_str_num h₂
  subst hb₁
  subst hb₂
  constructor
  · intro hk
    have hdata := congrArg String.data hk
    have hsplit₁ := sep_split (name_barFree hip₁) (name_barFree hip₂) hdata
    obtain ⟨hname, hrest⟩ := hsplit₁
    have hsplit₂ := sep_split (intRepr_barFree p₁) (intRepr_barFree p₂) hrest
    obtain ⟨hport, _⟩ := hsplit₂
    have hp : p₁ = p₂ := intRepr_inj hport
    subst hp
    rw [name_data_eq, name_data_eq] at hname
    have ha' := List.append_cancel_right hname
    have ha'' := List.append_cancel_right ha'
    exact ⟨String.ext ha'', rfl⟩
  · rintro ⟨ha, hp⟩
    subst ha
    subst hp
    rw [hip₁] at hip₂
    injection hip₂ with hip
    rw [hip]

/-- Backend value produced for address spelling `::1`, port 80. -/
def backendLoop1 : Backend :=
  ⟨⟨"::1:80", "::1", 80⟩, "::1:80||80||0:0:0:0:0:0:0:1"⟩

/-- Backend value produced for address spelling `0:0:0:0:0:0:0:1`, port
80. -/
def backendLoop2 : Backend :=
  ⟨⟨"0:0:0:0:0:0:0:1:80", "0:0:0:0:0:0:0:1", 80⟩,
   "0:0:0:0:0:0:0:1:80||80||0:0:0:0:0:0:0:1"⟩

/-- C1 counterexample: the address spellings `::1` and `0:0:0:0:0:0:0:1`
parse to the same IPv6 address, yet the Backends built from them at port 80
have different keys — `Backend.getKey` hashes `service.name`, which embeds
the raw spelling, so canonicalization does not make the keys collide. -/
theorem claimC1_counterexample :
    Backend.construct (.str "::1") (.num 80) = .ok backendLoop1 ∧
    Backend.construct (.str "0:0:0:0:0:0:0:1") (.num 80) = .ok backendLoop2 ∧
    parseIP "::1" = parseIP "0:0:0:0:0:0:0:1" ∧
    backendLoop1.key ≠ backendLoop2.key := by
  refine ⟨by rfl, by rfl, by rfl, by decide⟩

/-- C1 (amended): two constructed Backends have equal keys exactly when
their raw address strings and ports are equal.  In particular different
(address, port) endpoints still yield different keys, but two different
textual spellings of the same IP address yield different keys as well. -/
theorem claimC1_key_eq_iff (a₁ a₂ : String) (p₁ p₂ : Int) (b₁ b₂ : Backend)
    (h₁ : Backend.construct (.str a₁) (.num p₁) = .ok b₁)
    (h₂ : Backend.construct (.str a₂) (.num p₂) = .ok b₂) :
    (b₁.key = b₂.key ↔ (a₁ = a₂ ∧ p₁ = p₂)) :=
  construct_key_eq_iff h₁ h₂

theorem claimC1_witness :
    (backendLoop1.key = backendLoop2.key ↔
      ("::1" : String) = "0:0:0:0:0:0:0:1" ∧ (80 : Int) = 80) :=
  claimC1_key_eq_iff "::1" "0:0:0:0:0:0:0:1" 80 80 backendLoop1 backendLoop2
    (by rfl) (by rfl)

/-- Backend value produced for address `127.0.0.1`, port 80. -/
def backend127 : Backend :=
  ⟨⟨"127.0.0.1:80", "127.0.0.1", 80⟩, "127.0.0.1:80||80||127.0.0.1"⟩

/-- C9: constructing a Backend fails with a ValidationError exactly when the
address is not a string holding a syntactically valid IP literal or the
port is absent or not a number; on success the Backend carries the name
`address:port` and the derived key.  An error surfacing through
`addBackend`/`removeBackend` leaves the whole world — state, backends map,
queue, pending tasks and event trace — unchanged. -/
theorem claimC9_validation :
    (∀ address port : JsVal,
      ((∃ e, Backend.construct address port = .error e) ↔
        (¬ ∃ s ip, address = JsVal.str s ∧ parseIP s = some ip) ∨
        (¬ ∃ n, port = JsVal.num n)))
    ∧ (∀ (a : String) (p : Int) (b : Backend),
        Backend.construct (.str a) (.num p) = .ok b →
        b.service.name = a ++ ":" ++ String.mk (intRepr p) ∧
        b.service.address = a ∧ b.service.port = p ∧
        computeKey b.service = some b.key)
    ∧ (∀ (w : World) (d : BackendInput) (e : ValidationError),
        (addBackendR w d).1 = .error e → (addBackendR w d).2 = w)
    ∧ (∀ (w : World) (d : BackendInput) (e : ValidationError),
        (removeBackendR w d).1 = .error e → (removeBackendR w d).2 = w) := by
  refine ⟨?_, ?_, ?_, ?_⟩
  · intro address port
    constructor
    · rintro ⟨e, he⟩
      by_contra hneg
      push_neg at hneg
      obtain ⟨⟨s, ip, h1, h2⟩, n, h3⟩ := hneg
      subst h1
      subst h3
      rw [construct_str_eq, h2] at he
      simp at he
    · intro h
      cases address with
      | str s =>
        cases hip : parseIP s with
        | some ip =>
          rcases h with h | h
          · exact absurd ⟨s, ip, rfl, hip⟩ h
          · cases port with
            | num n => exact absurd ⟨n, rfl⟩ h
            | str t => exact ⟨.portNotNumber, by rw [construct_str_eq, hip]⟩
            | undef => exact ⟨.portNotNumber, by rw [construct_str_eq, hip]⟩
            | null => exact ⟨.portNotNumber, by rw [construct_str_eq, hip]⟩
        | none => exact ⟨.addressNotIp, by rw [construct_str_eq, hip]⟩
      | num n => exact ⟨.addressNotString, rfl⟩
      | undef => exact ⟨.addressNotString, rfl⟩
      | null => exact ⟨.addressNotString, rfl⟩
  · intro a p b h
    obtain ⟨ip, hip, hb⟩ := construct_str_num h
    subst hb
    refine ⟨rfl, rfl, rfl, ?_⟩
    unfold computeKey
    rw [hip]
    rfl
  · intro w d e h
    unfold addBackendR at h ⊢
    cases hcb : createBackend w.r.defaultPort d with
    | error e' => rfl
    | ok b =>
      rw [hcb] at h
      by_cases hs : w.r.state = .running <;> simp [hs] at h
  · intro w d e h
    unfold removeBackendR at h ⊢
    cases hcb : createBackend w.r.defaultPort d with
    | error e' => rfl
    | ok b =>
      rw [hcb] at h
      by_cases hs : w.r.state = .running <;> simp [hs] at h

theorem claimC9_witness :
    backend127.service.name = "127.0.0.1" ++ ":" ++ String.mk (intRepr 80) ∧
    backend127.service.address = "127.0.0.1" ∧
    backend127.service.port = 80 ∧
    computeKey backend127.service = some backend127.key :=
  claimC9_validation.2.1 "127.0.0.1" 80 backend127 (by rfl)

/-! ## Operation semantics: `addBackend`, `removeBackend`, `start`, `stop` -/

lemma mapDelete_not_mem {m : MapL} {k : String} (h : mapMem m k = false) :
    mapDelete m k = m := by
  unfold mapDelete
  rw [List.filter_eq_self]
  intro p hp
  unfold mapMem at h
  rw [List.any_eq_false] at h
  simpa using h p hp

/-- Concrete resolver already in the `running` state with no backends. -/
def wRunning : World :=
  { r := { state := .running, defaultPort := 80, backends := [], queue := [],
           lastError := none },
    tasks := [], trace := [] }

/-- C4: with a valid descriptor, `addBackend` (resp. `removeBackend`) in the
`running` state immediately sets (deletes) the key in the map and emits
`added` (`removed`) with the key and service descriptor (followed by the
internal `updated` signal), leaving the queue alone; in any non-running
state it appends an add (remove) entry to the queue, emits nothing and
leaves the map and state alone.  Both return the resolved Backend. -/
theorem claimC4_addRemove_semantics (w : World) (d : BackendInput) (b : Backend)
    (hcb : createBackend w.r.defaultPort d = .ok b) :
    (w.r.state = .running →
      (addBackendR w d).1 = .ok b ∧
      (addBackendR w d).2.r.backends = mapSet w.r.backends b.key b ∧
      (addBackendR w d).2.r.queue = w.r.queue ∧
      (addBackendR w d).2.trace = w.trace ++ [.added b.key b.service, .updated] ∧
      (addBackendR w d).2.r.state = .running ∧
      (removeBackendR w d).1 = .ok b ∧
      (removeBackendR w d).2.r.backends = mapDelete w.r.backends b.key ∧
      (removeBackendR w d).2.r.queue = w.r.queue ∧
      (removeBackendR w d).2.trace = w.trace ++ [.removed b.key b.service, .updated] ∧
      (removeBackendR w d).2.r.state = .running)
    ∧ (w.r.state ≠ .running →
      (addBackendR w d).1 = .ok b ∧
      (addBackendR w d).2.r.backends = w.r.backends ∧
      (addBackendR w d).2.r.queue = w.r.queue ++ [⟨b.key, .add, b⟩] ∧
      (addBackendR w d).2.trace = w.trace ∧
      (addBackendR w d).2.r.state = w.r.state ∧
      (removeBackendR w d).1 = .ok b ∧
      (removeBackendR w d).2.r.backends = w.r.backends ∧
      (removeBackendR w d).2.r.queue = w.r.queue ++ [⟨b.key, .remove, b⟩] ∧
      (removeBackendR w d).2.trace = w.trace ∧
      (removeBackendR w d).2.r.state = w.r.state) := by
  constructor
  · intro hs
    unfold addBackendR removeBackendR
    rw [hcb]
    simp only [hs, if_pos]
    unfold emitUpdated emitPlain
    simp [hs]
  · intro hs
    unfold addBackendR removeBackendR
    rw [hcb]
    simp [hs]

theorem claimC4_witness :
    (addBackendR wRunning (Sum.inr (JsVal.str "127.0.0.1", JsVal.undef))).1
        = .ok backend127 ∧
    (addBackendR wRunning (Sum.inr (JsVal.str "127.0.0.1", JsVal.undef))).2.r.backends
        = mapSet wRunning.r.backends backend127.key backend127 := by
  have h := (claimC4_addRemove_semantics wRunning
    (Sum.inr (JsVal.str "127.0.0.1", JsVal.undef)) backend127 (by rfl)).1 (by rfl)
  exact ⟨h.1, h.2.1⟩

/-- C10: in the `running` state, `removeBackend` of a valid descriptor whose
key is not in the map succeeds and returns the resolved Backend, leaves the
map (hence `list()` and `count()`) unchanged, and still emits a `removed`
event for that key. -/
theorem claimC10_remove_missing (w : World) (d : BackendInput) (b : Backend)
    (hs : w.r.state = .running)
    (hcb : createBackend w.r.defaultPort d = .ok b)
    (hmem : mapMem w.r.backends b.key = false) :
    (removeBackendR w d).1 = .ok b ∧
    (removeBackendR w d).2.r.backends = w.r.backends ∧
    listR (removeBackendR w d).2 = listR w ∧
    countR (removeBackendR w d).2 = countR w ∧
    (removeBackendR w d).2.trace = w.trace ++ [.removed b.key b.service, .updated] ∧
    (removeBackendR w d).2.r.queue = w.r.queue := by
  have h := (claimC4_addRemove_semantics w d b hcb).1 hs
  have hdel : mapDelete w.r.backends b.key = w.r.backends := mapDelete_not_mem hmem
  refine ⟨h.2.2.2.2.2.1, ?_, ?_, ?_, h.2.2.2.2.2.2.2.2.1, h.2.2.2.2.2.2.2.1⟩
  · rw [h.2.2.2.2.2.2.1, hdel]
  · unfold listR
    rw [h.2.2.2.2.2.2.1, hdel]
  · unfold countR
    rw [h.2.2.2.2.2.2.1, hdel]

theorem claimC10_witness :
    (removeBackendR wRunning (Sum.inr (JsVal.str "127.0.0.1", JsVal.undef))).1
        = .ok backend127 ∧
    (removeBackendR wRunning (Sum.inr (JsVal.str "127.0.0.1", JsVal.undef))).2.r.backends
        = wRunning.r.backends ∧
    (removeBackendR wRunning (Sum.inr (JsVal.str "127.0.0.1", JsVal.undef))).2.trace
        = wRunning.trace ++ [.removed backend127.key backend127.service, .updated] := by
  have h := claimC10_remove_missing wRunning
    (Sum.inr (JsVal.str "127.0.0.1", JsVal.undef)) backend127 (by rfl) (by rfl) (by rfl)
  exact ⟨h.1, h.2.1, h.2.2.2.2.1⟩

/-- C8: `start()` fails exactly when the state is not `stopped` and `stop()`
fails exactly when it is `stopped`; a failing call leaves the world
untouched; a successful `stop()` emits the stop signal from every
non-stopped state — transitioning to `stopping` from `running` and
`failed`, and emitting the signal with no transition from `starting` and
`stopping`. -/
theorem claimC8_start_stop (w : World) :
    (((startR w).1 = .error ()) ↔ w.r.state ≠ .stopped) ∧
    (((stopR w).1 = .error ()) ↔ w.r.state = .stopped) ∧
    ((startR w).1 = .error () → (startR w).2 = w) ∧
    ((stopR w).1 = .error () → (stopR w).2 = w) ∧
    (w.r.state = .running ∨ w.r.state = .failed →
      (stopR w).1 = .ok () ∧
      (stopR w).2.trace = w.trace ++ [.stopAsserted, .stateChanged .stopping] ∧
      (stopR w).2.r.state = .stopping ∧
      (stopR w).2.r.backends = w.r.backends ∧
      (stopR w).2.r.queue = w.r.queue ∧
      (stopR w).2.tasks = w.tasks ++ [.gotoStopped]) ∧
    (w.r.state = .starting ∨ w.r.state = .stopping →
      (stopR w).1 = .ok () ∧
      (stopR w).2 = { w with trace := w.trace ++ [Event.stopAsserted] }) := by
  refine ⟨?_, ?_, ?_, ?_, ?_, ?_⟩
  · unfold startR
    by_cases hs : w.r.state = .stopped <;> simp [hs]
  · unfold stopR
    by_cases hs : w.r.state = .stopped <;> simp [hs]
  · unfold startR
    by_cases hs : w.r.state = .stopped <;> simp [hs]
  · unfold stopR
    by_cases hs : w.r.state = .stopped <;> simp [hs]
  · intro hs
    rcases hs with hs | hs <;>
      simp [stopR, hs, emitStopAsserted, enterStopping]
  · intro hs
    rcases hs with hs | hs <;>
      simp [stopR, hs, emitStopAsserted]

/-- Concrete resolver sitting in the `failed` state with one applied backend
and one queued operation. -/
def wFailed : World :=
  { r := { state := .failed, defaultPort := 80,
           backends := [(backend127.key, backend127)],
           queue := [⟨backendLoop1.key, .add, backendLoop1⟩],
           lastError := none },
    tasks := [], trace := [] }

theorem claimC8_witness :
    (stopR wFailed).1 = .ok () ∧
    (stopR wFailed).2.r.state = .stopping ∧
    (stopR wFailed).2.trace
      = wFailed.trace ++ [.stopAsserted, .stateChanged .stopping] := by
  have h := (claimC8_start_stop wFailed).2.2.2.2.1 (Or.inr rfl)
  exact ⟨h.1, h.2.2.1, h.2.1⟩

/-! ## Drain characterization and state-preservation lemmas -/

/-- Events emitted when the drain loop applies one queue entry. -/
def itemEvents (it : QueueItem) : List Event :=
  match it.operation with
  | .add => [.added it.backend.key it.backend.service, .updated]
  | .remove => [.removed it.backend.key it.backend.service, .updated]

/-- Map effect of applying one queue entry. -/
def applyItem (m : MapL) (it : QueueItem) : MapL :=
  match it.operation with
  | .add => mapSet m it.backend.key it.backend
  | .remove => mapDelete m it.backend.key

lemma drainRec_spec (q : List QueueItem) (m : MapL) :
    drainRec m q = (q.foldl applyItem m, q.flatMap itemEvents) := by
  induction q generalizing m with
  | nil => rfl
  | cons it rest ih =>
    unfold drainRec
    cases hop : it.operation <;>
      simp [ih, itemEvents, applyItem, hop]

lemma enterRunning_spec (w : World) :
    enterRunning w =
      { w with
          r := { w.r with
                   state := .running
                   backends := w.r.queue.foldl applyItem w.r.backends
                   queue := [] },
          trace := w.trace ++ w.r.queue.flatMap itemEvents ++ [.stateChanged .running] } := by
  unfold enterRunning
  rw [drainRec_spec]

lemma addBackendR_state (w : World) (d : BackendInput) :
    (addBackendR w d).2.r.state = w.r.state := by
  unfold addBackendR
  cases hcb : createBackend w.r.defaultPort d with
  | error e => rfl
  | ok b =>
    by_cases hs : w.r.state = .running
    · simp only [hs, if_pos]
      unfold emitUpdated emitPlain
      simp [hs]
    · simp [hs]

lemma removeBackendR_state (w : World) (d : BackendInput) :
    (removeBackendR w d).2.r.state = w.r.state := by
  unfold removeBackendR
  cases hcb : createBackend w.r.defaultPort d with
  | error e => rfl
  | ok b =>
    by_cases hs : w.r.state = .running
    · simp only [hs, if_pos]
      unfold emitUpdated emitPlain
      simp [hs]
    · simp [hs]

lemma addAll_state (bs : List Backend) (w : World) :
    (addAll w bs).r.state = w.r.state := by
  induction bs generalizing w with
  | nil => rfl
  | cons b rest ih =>
    unfold addAll
    rw [ih, addBackendR_state]

lemma removeAll_state (bs : List Backend) (w : World) :
    (removeAll w bs).r.state = w.r.state := by
  induction bs generalizing w with
  | nil => rfl
  | cons b rest ih =>
    unfold removeAll
    rw [ih, removeBackendR_state]

lemma emitUpdated_starting {w : World} (h : w.r.state = .starting) :
    emitUpdated w = enterRunning { w with trace := w.trace ++ [Event.updated] } := by
  unfold emitUpdated
  rw [h]

lemma emitUpdated_failed {w : World} (h : w.r.state = .failed) :
    emitUpdated w = enterRunning { w with trace := w.trace ++ [Event.updated] } := by
  unfold emitUpdated
  rw [h]

lemma createBackend_instance (dp : Int) (b : Backend) :
    createBackend dp (.inl b) = .ok b := rfl

/-- In a non-running state a successful `addBackend` only appends the queue
entry. -/
lemma addBackendR_nonrunning {w : World} {d : BackendInput} {b : Backend}
    (hs : w.r.state ≠ .running) (hcb : createBackend w.r.defaultPort d = .ok b) :
    addBackendR w d =
      (.ok b, { w with r := { w.r with queue := w.r.queue ++ [⟨b.key, .add, b⟩] } }) := by
  unfold addBackendR
  rw [hcb]
  simp [hs]

/-- In a non-running state a successful `removeBackend` only appends the
queue entry. -/
lemma removeBackendR_nonrunning {w : World} {d : BackendInput} {b : Backend}
    (hs : w.r.state ≠ .running) (hcb : createBackend w.r.defaultPort d = .ok b) :
    removeBackendR w d =
      (.ok b, { w with r := { w.r with queue := w.r.queue ++ [⟨b.key, .remove, b⟩] } }) := by
  unfold removeBackendR
  rw [hcb]
  simp [hs]

/-- In the running state a successful `addBackend` sets the key, emits
`added` then `updated`, and touches nothing else. -/
lemma addBackendR_running {w : World} {d : BackendInput} {b : Backend}
    (hs : w.r.state = .running) (hcb : createBackend w.r.defaultPort d = .ok b) :
    addBackendR w d =
      (.ok b, { w with
        r := { w.r with backends := mapSet w.r.backends b.key b },
        trace := w.trace ++ [.added b.key b.service, .updated] }) := by
  unfold addBackendR
  rw [hcb]
  simp only [hs, if_pos]
  unfold emitUpdated emitPlain
  simp [hs]

lemma removeBackendR_running {w : World} {d : BackendInput} {b : Backend}
    (hs : w.r.state = .running) (hcb : createBackend w.r.defaultPort d = .ok b) :
    removeBackendR w d =
      (.ok b, { w with
        r := { w.r with backends := mapDelete w.r.backends b.key },
        trace := w.trace ++ [.removed b.key b.service, .updated] }) := by
  unfold removeBackendR
  rw [hcb]
  simp only [hs, if_pos]
  unfold emitUpdated emitPlain
  simp [hs]

/-! ## Entering `running`, the `starting` state, and the `failed` state -/

lemma enterRunning_state (w : World) : (enterRunning w).r.state = .running := rfl

/-- Events of kind `added` within a trace. -/
def addedEvents (tr : List Event) : List Event :=
  tr.filter (fun e => match e with | .added _ _ => true | _ => false)

/-- Initial backend list of the three-backend scenario: one explicit port,
two relying on `defaultPort`. -/
def c5Backends : List BackendInput :=
  [.inr (.str "10.0.0.3", .num 2022), .inr (.str "10.0.0.4", .undef),
   .inr (.str "10.0.0.5", .undef)]

/-- World reached by constructing the three-backend resolver with
`defaultPort` 2021, calling `start()` and running the scheduled flush. -/
def c5Final : Option World :=
  (mkResolver 2021 c5Backends).toOption.bind (fun w => runActs w [.startA, .taskA])

/-- C5: entering `running` drains the pending queue in FIFO order — the
final map folds the queued operations over the previous map in queue order
and the trace gains the per-entry `added`/`removed` event (with its
`updated` signal) in queue order; concretely, the resolver constructed with
three backends (one explicit port, two defaulted) and started emits exactly
three `added` events in input order, and `list()` then returns them in that
order with the defaulted ports filled in. -/
theorem claimC5_drain_fifo :
    (∀ w : World,
      (enterRunning w).r.backends = w.r.queue.foldl applyItem w.r.backends ∧
      (enterRunning w).r.queue = [] ∧
      (enterRunning w).trace
        = w.trace ++ w.r.queue.flatMap itemEvents ++ [.stateChanged .running]) ∧
    c5Final.map (fun w =>
        (addedEvents w.trace, (listR w).map (fun b => b.service), countR w, w.r.state))
      = some
        ([.added "10.0.0.3:2022||2022||10.0.0.3" ⟨"10.0.0.3:2022", "10.0.0.3", 2022⟩,
          .added "10.0.0.4:2021||2021||10.0.0.4" ⟨"10.0.0.4:2021", "10.0.0.4", 2021⟩,
          .added "10.0.0.5:2021||2021||10.0.0.5" ⟨"10.0.0.5:2021", "10.0.0.5", 2021⟩],
         [⟨"10.0.0.3:2022", "10.0.0.3", 2022⟩, ⟨"10.0.0.4:2021", "10.0.0.4", 2021⟩,
          ⟨"10.0.0.5:2021", "10.0.0.5", 2021⟩],
         3, .running) := by
  constructor
  · intro w
    rw [enterRunning_spec]
    exact ⟨rfl, rfl, rfl⟩
  · rfl

theorem claimC5_witness :
    (enterRunning wFailed).r.backends
        = wFailed.r.queue.foldl applyItem wFailed.r.backends ∧
    (enterRunning wFailed).r.queue = [] :=
  ⟨(claimC5_drain_fifo.1 wFailed).1, (claimC5_drain_fifo.1 wFailed).2.1⟩

/-- Resolver freshly constructed with no backends: the `stopped` state. -/
def wStopped : World :=
  { r := { state := .stopped, defaultPort := 80, backends := [], queue := [],
           lastError := none },
    tasks := [], trace := [] }

/-- Raw descriptor `{ address: '127.0.0.1' }` with the port left out. -/
def d127 : BackendInput := .inr (.str "127.0.0.1", .undef)

/-- C2 counterexample: right after `start()` the resolver is still in
`starting` — not `running` — and remains in `starting` across a further
`addBackend` call; it reaches `running` only once the scheduled task emits
the `updated` signal, which is visible in the trace just before the
transition.  The starting-to-running step therefore requires an emitted
signal and is not unconditional. -/
theorem claimC2_counterexample :
    (startR wStopped).2.r.state = .starting ∧
    (startR wStopped).2.r.state ≠ .running ∧
    (addBackendR (startR wStopped).2 d127).2.r.state = .starting ∧
    (runActs (startR wStopped).2 [.taskA]).map (fun w => (w.r.state, w.trace))
      = some (.running,
          [.startAsserted, .stateChanged .starting, .updated, .stateChanged .running]) := by
  refine ⟨rfl, by decide, rfl, rfl⟩

/-- C2 (amended): entering `starting` via `start()` does not transition
unconditionally; the machine waits for the `updated` signal.  `start()`
itself schedules the task that emits it, so — with no earlier pending
tasks — the very next scheduler turn brings the resolver to `running`
without any external or membership event. -/
theorem claimC2_starting_needs_updated (w : World)
    (hs : w.r.state = .stopped) (ht : w.tasks = []) :
    (startR w).1 = .ok () ∧
    (startR w).2.r.state = .starting ∧
    (startR w).2.tasks = [.startFlush] ∧
    ((stepA (startR w).2 .taskA).map (fun w' => w'.r.state)) = some .running := by
  have hW : (startR w).2.r.state = .starting := by
    unfold startR
    rw [if_pos hs]
    unfold emitStartAsserted
    rw [hs]
    rfl
  have hT : (startR w).2.tasks = [.startFlush] := by
    unfold startR
    rw [if_pos hs]
    unfold emitStartAsserted
    rw [hs]
    show (enterStarting _).tasks ++ [Task.startFlush] = _
    unfold enterStarting
    show w.tasks ++ [Task.startFlush] = _
    rw [ht]
    rfl
  refine ⟨?_, hW, hT, ?_⟩
  · unfold startR
    rw [if_pos hs]
  · have hstep : stepA (startR w).2 .taskA
        = (runTaskR .startFlush { (startR w).2 with tasks := [] }).toOption := by
      unfold stepA
      rw [hT]
    have hstate : (addAll { (startR w).2 with tasks := [] }
        (mapValues ({ (startR w).2 with tasks := [] } : World).r.backends)).r.state
          = .starting := by
      rw [addAll_state]
      exact hW
    rw [hstep]
    show ((Except.ok (emitUpdated (addAll { (startR w).2 with tasks := [] }
        (mapValues ({ (startR w).2 with tasks := [] } : World).r.backends))) :
          Except ValidationError World).toOption).map (fun w' => w'.r.state)
        = some .running
    rw [emitUpdated_starting hstate]
    rfl

theorem claimC2_witness :
    (startR wStopped).1 = .ok () ∧
    (startR wStopped).2.r.state = .starting ∧
    ((stepA (startR wStopped).2 .taskA).map (fun w' => w'.r.state))
      = some .running := by
  have h := claimC2_starting_needs_updated wStopped rfl rfl
  exact ⟨h.1, h.2.1, h.2.2.2⟩

/-- C6 counterexample: in the `failed` state a mutation succeeds — the call
returns the resolved Backend — yet the resolver does not transition back to
`running`: it stays `failed`, emits nothing (the trace is unchanged), and
merely queues the operation. -/
theorem claimC6_counterexample :
    (addBackendR wFailed d127).1 = .ok backend127 ∧
    (addBackendR wFailed d127).2.r.state = .failed ∧
    (addBackendR wFailed d127).2.r.state ≠ .running ∧
    (addBackendR wFailed d127).2.trace = wFailed.trace := by
  refine ⟨rfl, rfl, by decide, rfl⟩

/-- C6 (amended): while `failed`, a successful mutation only appends to the
pending queue — state, map and trace are untouched, so nothing is lost but
no recovery happens either; the transition back to `running` fires on
receipt of the `updated` signal, upon which the whole pending queue is
drained in order into the map with an event per entry. -/
theorem claimC6_failed_behavior (w : World) (hs : w.r.state = .failed) :
    (∀ (d : BackendInput) (b : Backend), createBackend w.r.defaultPort d = .ok b →
      addBackendR w d = (.ok b,
        { w with r := { w.r with queue := w.r.queue ++ [⟨b.key, .add, b⟩] } })) ∧
    deliverUpdated w = { w with
        r := { w.r with
                 state := .running
                 backends := w.r.queue.foldl applyItem w.r.backends
                 queue := [] },
        trace := w.trace ++ [Event.updated] ++ w.r.queue.flatMap itemEvents
          ++ [.stateChanged .running] } := by
  constructor
  · intro d b hcb
    exact addBackendR_nonrunning (by rw [hs]; exact fun h => FsmState.noConfusion h) hcb
  · unfold deliverUpdated
    rw [emitUpdated_failed hs, enterRunning_spec]

theorem claimC6_witness :
    (deliverUpdated wFailed).r.state = .running ∧
    (deliverUpdated wFailed).r.queue = [] ∧
    (deliverUpdated wFailed).r.backends
      = wFailed.r.queue.foldl applyItem wFailed.r.backends := by
  have h := (claimC6_failed_behavior wFailed rfl).2
  refine ⟨by rw [h], by rw [h], by rw [h]⟩

/-! ## Loading backends and the reset-before-start scenario -/

/-- Resolution of one loader input as `_loadBackends` performs it: the
load-time asserts (`checkRaw`) followed by `_createBackend`. -/
def resolveChecked (dp : Int) (d : BackendInput) : Option Backend :=
  match checkRaw d with
  | .error _ => none
  | .ok _ =>
    match createBackend dp d with
    | .error _ => none
    | .ok b => some b

lemma loadBackendsR_nonrunning : ∀ {l : List BackendInput} {w : World} {bs : List Backend},
    w.r.state ≠ .running →
    mapOpt (resolveChecked w.r.defaultPort) l = some bs →
    loadBackendsR w l = .ok { w with r := { w.r with
      queue := w.r.queue ++ bs.map (fun b => QueueItem.mk b.key .add b) } } := by
  intro l
  induction l with
  | nil =>
    intro w bs hs hres
    unfold mapOpt at hres
    injection hres with h
    subst h
    show Except.ok w = _
    rw [show w.r.queue ++ ([] : List Backend).map (fun b => QueueItem.mk b.key .add b)
      = w.r.queue by simp]
  | cons d rest ih =>
    intro w bs hs hres
    unfold mapOpt at hres
    cases hr1 : resolveChecked w.r.defaultPort d with
    | none => rw [hr1] at hres; simp at hres
    | some b =>
      rw [hr1] at hres
      cases hr2 : mapOpt (resolveChecked w.r.defaultPort) rest with
      | none => rw [hr2] at hres; simp at hres
      | some bs' =>
        rw [hr2] at hres
        injection hres with h
        subst h
        unfold resolveChecked at hr1
        cases hc : checkRaw d with
        | error e => rw [hc] at hr1; simp at hr1
        | ok u =>
          rw [hc] at hr1
          cases hcb : createBackend w.r.defaultPort d with
          | error e => rw [hcb] at hr1; simp at hr1
          | ok b0 =>
            rw [hcb] at hr1
            injection hr1 with hb0
            subst hb0
            have hres2 : mapOpt (resolveChecked
                ({ w with r := { w.r with
                    queue := w.r.queue ++ [⟨b0.key, .add, b0⟩] } } : World).r.defaultPort)
                rest = some bs' := hr2
            have hrec' : loadBackendsR ({ w with r := { w.r with
                  queue := w.r.queue ++ [⟨b0.key, .add, b0⟩] } } : World) rest
                = .ok { w with r := { w.r with
                    queue := (w.r.queue ++ [⟨b0.key, .add, b0⟩])
                      ++ bs'.map (fun b => QueueItem.mk b.key .add b) } } :=
              ih (w := { w with r := { w.r with
                queue := w.r.queue ++ [⟨b0.key, .add, b0⟩] } }) hs hres2
            have hgoal : loadBackendsR w (d :: rest)
                = loadBackendsR ({ w with r := { w.r with
                    queue := w.r.queue ++ [⟨b0.key, .add, b0⟩] } } : World) rest := by
              conv_lhs => rw [loadBackendsR]
              rw [hc, addBackendR_nonrunning hs hcb]
            rw [hgoal, hrec', List.append_assoc]
            rfl

lemma mapSet_not_mem {m : MapL} {k : String} {v : Backend}
    (h : mapMem m k = false) : mapSet m k v = m ++ [(k, v)] := by
  unfold mapSet
  unfold mapMem at h
  rw [h]
  simp

lemma foldl_applyItem_adds : ∀ (bs : List Backend) (m : MapL),
    (∀ b ∈ bs, mapMem m b.key = false) →
    (bs.map (fun b => b.key)).Nodup →
    (bs.map (fun b => QueueItem.mk b.key .add b)).foldl applyItem m
      = m ++ bs.map (fun b => (b.key, b)) := by
  intro bs
  induction bs with
  | nil => intro m h1 h2; simp
  | cons b rest ih =>
    intro m h1 h2
    simp only [List.map_cons, List.foldl_cons]
    have hfresh : mapMem m b.key = false := h1 b (List.mem_cons_self _ _)
    have happ : applyItem m ⟨b.key, .add, b⟩ = m ++ [(b.key, b)] := by
      unfold applyItem
      exact mapSet_not_mem hfresh
    rw [happ, ih (m ++ [(b.key, b)])]
    · simp
    · intro b' hb'
      unfold mapMem
      rw [List.any_append]
      have h1' : mapMem m b'.key = false := h1 b' (List.mem_cons_of_mem _ hb')
      unfold mapMem at h1'
      rw [h1']
      simp only [Bool.false_or, List.any_cons, List.any_nil, Bool.or_false]
      simp only [List.map_cons, List.nodup_cons, List.mem_map] at h2
      have hne : b.key ≠ b'.key := by
        intro hkeq
        exact h2.1 ⟨b', hb', hkeq.symm⟩
      simpa using fun hca => absurd hca hne
    · exact ((List.nodup_cons).mp h2).2

lemma runTaskR_startFlush (w : World) :
    runTaskR .startFlush w = .ok (emitUpdated (addAll w (mapValues w.r.backends))) := rfl

lemma runTaskR_reset (l : List BackendInput) (w : World) :
    runTaskR (.resetTask l) w
      = (match loadBackendsR (removeAll w (mapValues w.r.backends)) l with
        | .error e => .error e
        | .ok w2 => .ok (addAll w2 (mapValues w2.r.backends))) := rfl

lemma startR_stopped {w : World} (hs : w.r.state = .stopped) :
    startR w = (.ok (), { w with
      r := { w.r with state := .starting },
      tasks := w.tasks ++ [.startFlush],
      trace := w.trace ++ [.startAsserted, .stateChanged .starting] }) := by
  unfold startR
  rw [if_pos hs]
  unfold emitStartAsserted
  rw [hs]
  show (Except.ok (), ({
        r := { w.r with state := FsmState.starting },
        tasks := w.tasks ++ [Task.startFlush],
        trace := (w.trace ++ [Event.startAsserted])
          ++ [Event.stateChanged .starting] } : World)) = _
  rw [List.append_assoc]
  rfl

lemma stepA_task {w : World} {t : Task} {ts : List Task} (h : w.tasks = t :: ts) :
    stepA w .taskA = (runTaskR t { w with tasks := ts }).toOption := by
  unfold stepA
  rw [h]

lemma resetTask_step {w : World} {l : List BackendInput} {bs : List Backend}
    (hs : w.r.state ≠ .running) (hmap : w.r.backends = [])
    (hres : mapOpt (resolveChecked w.r.defaultPort) l = some bs) :
    runTaskR (.resetTask l) w = .ok { w with r := { w.r with
      queue := w.r.queue ++ bs.map (fun b => QueueItem.mk b.key .add b) } } := by
  rw [runTaskR_reset, hmap]
  rw [show removeAll w (mapValues []) = w from rfl]
  rw [loadBackendsR_nonrunning hs hres]
  show Except.ok (addAll { w with r := { w.r with
      queue := w.r.queue ++ bs.map (fun b => QueueItem.mk b.key .add b) } }
    (mapValues ({ w with r := { w.r with
      queue := w.r.queue ++ bs.map (fun b => QueueItem.mk b.key .add b) } } : World).r.backends))
    = _
  rw [show ({ w with r := { w.r with
      queue := w.r.queue ++ bs.map (fun b => QueueItem.mk b.key .add b) } } : World).r.backends
    = ([] : MapL) from hmap]
  rfl

lemma startFlush_step {w : World} (hs : w.r.state = .starting)
    (hmap : w.r.backends = []) :
    runTaskR .startFlush w
      = .ok (enterRunning { w with trace := w.trace ++ [Event.updated] }) := by
  rw [runTaskR_startFlush, hmap]
  rw [show addAll w (mapValues []) = w from rfl]
  exact congrArg _ (emitUpdated_starting hs)

/-- C7: `resetBackends(newList)` clears the pending queue synchronously at
call time — discarding every queued operation — emitting nothing and
leaving the map alone, and only schedules the clear-then-reload work as a
deferred task.  Called before `start()` (fresh resolver: empty map, no
pending tasks), once the two deferred turns have run the resolver is
`running` and `list()` holds exactly the backends of `newList`, in order,
and nothing from before. -/
theorem claimC7_resetBackends :
    (∀ (w : World) (l : List BackendInput),
      (resetBackendsR w l).r.queue = [] ∧
      (resetBackendsR w l).r.backends = w.r.backends ∧
      (resetBackendsR w l).trace = w.trace ∧
      (resetBackendsR w l).tasks = w.tasks ++ [.resetTask l]) ∧
    (∀ (w : World) (l : List BackendInput) (bs : List Backend),
      w.r.state = .stopped → w.r.backends = [] → w.tasks = [] →
      mapOpt (resolveChecked w.r.defaultPort) l = some bs →
      (bs.map (fun b => b.key)).Nodup →
      (runActs w [.resetA l, .startA, .taskA, .taskA]).map
          (fun w' => (listR w', w'.r.state))
        = some (bs, .running)) := by
  constructor
  · intro w l
    exact ⟨rfl, rfl, rfl, rfl⟩
  · intro w l bs hstate hmap htasks hres hnodup
    have hstep1 : stepA w (.resetA l) = some (resetBackendsR w l) := rfl
    set w1 := resetBackendsR w l with hw1
    have hs1 : w1.r.state = .stopped := hstate
    have hstart := startR_stopped hs1
    set w2 := { w1 with
      r := { w1.r with state := FsmState.starting },
      tasks := w1.tasks ++ [Task.startFlush],
      trace := w1.trace
        ++ [Event.startAsserted, Event.stateChanged FsmState.starting] } with hw2
    have hstep2 : stepA w1 .startA = some w2 := by
      unfold stepA
      rw [hstart]
    have htasks2 : w2.tasks = Task.resetTask l :: [Task.startFlush] := by
      show w1.tasks ++ [Task.startFlush] = Task.resetTask l :: [Task.startFlush]
      show w.tasks ++ [Task.resetTask l] ++ [Task.startFlush]
        = Task.resetTask l :: [Task.startFlush]
      rw [htasks]
      rfl
    have hstep3pre := stepA_task htasks2
    set w2' := { w2 with tasks := [Task.startFlush] } with hw2'
    have hs2' : w2'.r.state ≠ .running := by
      show FsmState.starting ≠ .running
      exact fun h => FsmState.noConfusion h
    have hm2' : w2'.r.backends = [] := hmap
    have hres2' : mapOpt (resolveChecked w2'.r.defaultPort) l = some bs := hres
    have hreset := resetTask_step hs2' hm2' hres2'
    set w3 := { w2' with r := { w2'.r with
      queue := w2'.r.queue
        ++ bs.map (fun (b : Backend) => QueueItem.mk b.key Op.add b) } } with hw3
    have hstep3 : stepA w2 .taskA = some w3 := by
      rw [hstep3pre, hreset]
      rfl
    have htasks3 : w3.tasks = Task.startFlush :: [] := rfl
    have hstep4pre := stepA_task htasks3
    set w3' := { w3 with tasks := ([] : List Task) } with hw3'
    have hs3' : w3'.r.state = .starting := rfl
    have hm3' : w3'.r.backends = [] := hmap
    have hflush := startFlush_step hs3' hm3'
    have hstep4 : stepA w3 .taskA
        = some (enterRunning { w3' with trace := w3'.trace ++ [Event.updated] }) := by
      rw [hstep4pre, hflush]
      rfl
    have hrun : runActs w [.resetA l, .startA, .taskA, .taskA]
        = some (enterRunning { w3' with trace := w3'.trace ++ [Event.updated] }) := by
      unfold runActs
      rw [hstep1]
      unfold runActs
      rw [hstep2]
      unfold runActs
      rw [hstep3]
      unfold runActs
      rw [hstep4]
      rfl
    rw [hrun]
    have hbaseY : ({ w3' with trace := w3'.trace ++ [Event.updated] } : World).r.backends
        = [] := hmap
    have hfold := foldl_applyItem_adds bs []
      (fun b _hb => rfl) hnodup
    have hlist : listR (enterRunning { w3' with trace := w3'.trace ++ [Event.updated] })
        = bs := by
      show mapValues (enterRunning
        { w3' with trace := w3'.trace ++ [Event.updated] }).r.backends = bs
      have hb : (enterRunning
          { w3' with trace := w3'.trace ++ [Event.updated] }).r.backends
          = ({ w3' with trace := w3'.trace ++ [Event.updated] } : World).r.queue.foldl
              applyItem
              ({ w3' with trace := w3'.trace ++ [Event.updated] } : World).r.backends := by
        rw [enterRunning_spec]
      rw [hb, hbaseY]
      rw [show ({ w3' with trace := w3'.trace ++ [Event.updated] } : World).r.queue
        = bs.map (fun (b : Backend) => QueueItem.mk b.key Op.add b) from rfl]
      rw [hfold]
      unfold mapValues
      simp only [List.nil_append, List.map_map]
      have : ((fun (p : String × Backend) => p.2) ∘ fun (b : Backend) => (b.key, b))
          = (id : Backend → Backend) := rfl
      rw [this, List.map_id]
    simp only [Option.map_some]
    refine congrArg some ?_
    show (listR (enterRunning { w3' with trace := w3'.trace ++ [Event.updated] }),
        (enterRunning { w3' with trace := w3'.trace ++ [Event.updated] }).r.state)
      = (bs, FsmState.running)
    rw [hlist]
    rfl

theorem claimC7_witness :
    (runActs wStopped [.resetA [d127], .startA, .taskA, .taskA]).map
        (fun w' => (listR w', w'.r.state))
      = some ([backend127], .running) :=
  claimC7_resetBackends.2 wStopped [d127] [backend127] rfl rfl rfl (by rfl) (by decide)

/-! ## Reachability invariant: queue/backends disjointness -/

/-- Disjointness of the queue and the map as the spec states it: no key in
the map is simultaneously queued for `add`. -/
def queueMapDisjoint (w : World) : Prop :=
  ∀ it ∈ w.r.queue, it.operation = .add → mapMem w.r.backends it.key = false

/-- Inductive invariant of stop-free executions: before the first entry
into `running` the map is empty, in `running` the queue is empty, and the
states `stopping` and `failed` are unreachable. -/
def resolverInv (w : World) : Prop :=
  ((w.r.state = .stopped ∨ w.r.state = .starting) → w.r.backends = []) ∧
  (w.r.state = .running → w.r.queue = []) ∧
  w.r.state ≠ .stopping ∧ w.r.state ≠ .failed

lemma inv_disjoint {w : World} (h : resolverInv w) : queueMapDisjoint w := by
  intro it hit _hadd
  obtain ⟨h1, h2, h3, h4⟩ := h
  cases hstate : w.r.state with
  | stopped => rw [h1 (Or.inl hstate)]; rfl
  | starting => rw [h1 (Or.inr hstate)]; rfl
  | running =>
    rw [h2 hstate] at hit
    simp at hit
  | stopping => exact absurd hstate h3
  | failed => exact absurd hstate h4

lemma emitUpdated_noop {w : World}
    (hs : w.r.state = .stopped ∨ w.r.state = .running ∨ w.r.state = .stopping) :
    emitUpdated w = { w with trace := w.trace ++ [Event.updated] } := by
  unfold emitUpdated
  rcases hs with h | h | h <;> rw [h]

lemma addBackendR_ok {w : World} {d : BackendInput} {b : Backend}
    (h : (addBackendR w d).1 = .ok b) : createBackend w.r.defaultPort d = .ok b := by
  unfold addBackendR at h
  cases hcb : createBackend w.r.defaultPort d with
  | error e => rw [hcb] at h; simp at h
  | ok b0 =>
    rw [hcb] at h
    by_cases hs : w.r.state = .running <;> simp [hs] at h <;> rw [h]

lemma removeBackendR_ok {w : World} {d : BackendInput} {b : Backend}
    (h : (removeBackendR w d).1 = .ok b) : createBackend w.r.defaultPort d = .ok b := by
  unfold removeBackendR at h
  cases hcb : createBackend w.r.defaultPort d with
  | error e => rw [hcb] at h; simp at h
  | ok b0 =>
    rw [hcb] at h
    by_cases hs : w.r.state = .running <;> simp [hs] at h <;> rw [h]

lemma addAll_run : ∀ (bs : List Backend) {w : World}, w.r.state = .running →
    w.r.queue = [] → (addAll w bs).r.state = .running ∧ (addAll w bs).r.queue = [] := by
  intro bs
  induction bs with
  | nil => intro w hs hq; exact ⟨hs, hq⟩
  | cons b rest ih =>
    intro w hs hq
    unfold addAll
    rw [addBackendR_running hs (createBackend_instance w.r.defaultPort b)]
    exact ih hs hq

lemma removeAll_run : ∀ (bs : List Backend) {w : World}, w.r.state = .running →
    w.r.queue = [] → (removeAll w bs).r.state = .running ∧ (removeAll w bs).r.queue = [] := by
  intro bs
  induction bs with
  | nil => intro w hs hq; exact ⟨hs, hq⟩
  | cons b rest ih =>
    intro w hs hq
    unfold removeAll
    rw [removeBackendR_running hs (createBackend_instance w.r.defaultPort b)]
    exact ih hs hq

lemma loadBackendsR_inv {l : List BackendInput} : ∀ {w w' : World},
    loadBackendsR w l = .ok w' →
    w'.r.state = w.r.state ∧
    (w.r.state ≠ .running → w'.r.backends = w.r.backends) ∧
    (w.r.state = .running → w.r.queue = [] → w'.r.queue = []) := by
  induction l with
  | nil =>
    intro w w' h
    injection h with h'
    subst h'
    exact ⟨rfl, fun _ => rfl, fun _ hq => hq⟩
  | cons d rest ih =>
    intro w w' h
    unfold loadBackendsR at h
    cases hc : checkRaw d with
    | error e => rw [hc] at h; simp at h
    | ok u =>
      rw [hc] at h
      cases hab : addBackendR w d with
      | mk res w2 =>
        rw [hab] at h
        cases res with
        | error e => simp at h
        | ok b =>
          have hcb : createBackend w.r.defaultPort d = .ok b :=
            addBackendR_ok (by rw [hab])
          have hrec := ih (w := w2) h
          by_cases hs : w.r.state = .running
          · have hw2 : w2 = { w with
                r := { w.r with backends := mapSet w.r.backends b.key b },
                trace := w.trace ++ [.added b.key b.service, .updated] } := by
              have := addBackendR_running hs hcb
              rw [hab] at this
              exact congrArg Prod.snd this
            subst hw2
            refine ⟨by rw [hrec.1, hs], fun hnr => absurd hs hnr, fun _ hq => ?_⟩
            exact hrec.2.2 hs hq
          · have hw2 : w2 = { w with
                r := { w.r with queue := w.r.queue ++ [⟨b.key, .add, b⟩] } } := by
              have := addBackendR_nonrunning hs hcb
              rw [hab] at this
              exact congrArg Prod.snd this
            subst hw2
            refine ⟨hrec.1, fun _ => ?_, fun hr _ => absurd hr hs⟩
            rw [hrec.2.1 hs]

lemma inv_of_stopped {w : World} (hs : w.r.state = .stopped)
    (hb : w.r.backends = []) : resolverInv w := by
  refine ⟨fun _ => hb, fun hr => ?_, fun hx => ?_, fun hx => ?_⟩
  · rw [hs] at hr; exact FsmState.noConfusion hr
  · rw [hs] at hx; exact FsmState.noConfusion hx
  · rw [hs] at hx; exact FsmState.noConfusion hx

lemma inv_of_starting {w : World} (hs : w.r.state = .starting)
    (hb : w.r.backends = []) : resolverInv w := by
  refine ⟨fun _ => hb, fun hr => ?_, fun hx => ?_, fun hx => ?_⟩
  · rw [hs] at hr; exact FsmState.noConfusion hr
  · rw [hs] at hx; exact FsmState.noConfusion hx
  · rw [hs] at hx; exact FsmState.noConfusion hx

lemma inv_of_running {w : World} (hs : w.r.state = .running)
    (hq : w.r.queue = []) : resolverInv w := by
  refine ⟨fun hst => ?_, fun _ => hq, fun hx => ?_, fun hx => ?_⟩
  · rcases hst with h | h <;> (rw [hs] at h; exact FsmState.noConfusion h)
  · rw [hs] at hx; exact FsmState.noConfusion hx
  · rw [hs] at hx; exact FsmState.noConfusion hx

lemma stepA_start (w : World) :
    stepA w .startA = (match startR w with
      | (.ok _, w2) => some w2
      | (.error _, _) => none) := rfl

lemma stepA_add (w : World) (d : BackendInput) :
    stepA w (.addA d) = (match addBackendR w d with
      | (.ok _, w2) => some w2
      | (.error _, _) => none) := rfl

lemma stepA_remove (w : World) (d : BackendInput) :
    stepA w (.removeA d) = (match removeBackendR w d with
      | (.ok _, w2) => some w2
      | (.error _, _) => none) := rfl

lemma stepA_preserves_inv {w w' : World} {a : Act} (ha : a ≠ .stopA)
    (hstep : stepA w a = some w') (hinv : resolverInv w) : resolverInv w' := by
  obtain ⟨h1, h2, h3, h4⟩ := hinv
  cases a with
  | stopA => exact absurd rfl ha
  | startA =>
    rw [stepA_start] at hstep
    by_cases hs : w.r.state = .stopped
    · rw [startR_stopped hs] at hstep
      replace hstep : some ({ w with
          r := { w.r with state := .starting },
          tasks := w.tasks ++ [.startFlush],
          trace := w.trace ++ [.startAsserted, .stateChanged .starting] } : World)
          = some w' := hstep
      injection hstep with hw'
      subst hw'
      exact inv_of_starting rfl (h1 (Or.inl hs))
    · unfold startR at hstep
      rw [if_neg hs] at hstep
      simp at hstep
  | addA d =>
    rw [stepA_add] at hstep
    cases hab : addBackendR w d with
    | mk res w2 =>
      rw [hab] at hstep
      cases res with
      | error e => simp at hstep
      | ok b =>
        replace hstep : some w2 = some w' := hstep
        injection hstep with hw'
        subst hw'
        have hcb : createBackend w.r.defaultPort d = .ok b :=
          addBackendR_ok (by rw [hab])
        by_cases hs : w.r.state = .running
        · have hw2 : w2 = { w with
              r := { w.r with backends := mapSet w.r.backends b.key b },
              trace := w.trace ++ [.added b.key b.service, .updated] } := by
            have := addBackendR_running hs hcb
            rw [hab] at this
            exact congrArg Prod.snd this
          subst hw2
          exact inv_of_running hs (h2 hs)
        · have hw2 : w2 = { w with
              r := { w.r with queue := w.r.queue ++ [⟨b.key, .add, b⟩] } } := by
            have := addBackendR_nonrunning hs hcb
            rw [hab] at this
            exact congrArg Prod.snd this
          subst hw2
          exact ⟨fun hst => h1 hst, fun hr => absurd hr hs, h3, h4⟩
  | removeA d =>
    rw [stepA_remove] at hstep
    cases hab : removeBackendR w d with
    | mk res w2 =>
      rw [hab] at hstep
      cases res with
      | error e => simp at hstep
      | ok b =>
        replace hstep : some w2 = some w' := hstep
        injection hstep with hw'
        subst hw'
        have hcb : createBackend w.r.defaultPort d = .ok b :=
          removeBackendR_ok (by rw [hab])
        by_cases hs : w.r.state = .running
        · have hw2 : w2 = { w with
              r := { w.r with backends := mapDelete w.r.backends b.key },
              trace := w.trace ++ [.removed b.key b.service, .updated] } := by
            have := removeBackendR_running hs hcb
            rw [hab] at this
            exact congrArg Prod.snd this
          subst hw2
          exact inv_of_running hs (h2 hs)
        · have hw2 : w2 = { w with
              r := { w.r with queue := w.r.queue ++ [⟨b.key, .remove, b⟩] } } := by
            have := removeBackendR_nonrunning hs hcb
            rw [hab] at this
            exact congrArg Prod.snd this
          subst hw2
          exact ⟨fun hst => h1 hst, fun hr => absurd hr hs, h3, h4⟩
  | resetA l =>
    replace hstep : some (resetBackendsR w l) = some w' := hstep
    injection hstep with hw'
    subst hw'
    exact ⟨fun hst => h1 hst, fun _ => rfl, h3, h4⟩
  | taskA =>
    replace hstep : (match w.tasks with
        | [] => (none : Option World)
        | t :: ts => (runTaskR t { w with tasks := ts }).toOption) = some w' := hstep
    cases htasks : w.tasks with
    | nil => rw [htasks] at hstep; simp at hstep
    | cons t ts =>
      rw [htasks] at hstep
      replace hstep : (runTaskR t { w with tasks := ts }).toOption = some w' := hstep
      have hinv0 : resolverInv { w with tasks := ts } := ⟨h1, h2, h3, h4⟩
      obtain ⟨g1, g2, g3, g4⟩ := hinv0
      cases t with
      | gotoStopped =>
        replace hstep : (Except.ok (if ({ w with tasks := ts } : World).r.state
            = .stopping then enterStopped { w with tasks := ts }
            else { w with tasks := ts }) : Except ValidationError World).toOption
            = some w' := hstep
        rw [if_neg g3] at hstep
        injection hstep with hw'
        subst hw'
        exact ⟨g1, g2, g3, g4⟩
      | startFlush =>
        replace hstep : some (emitUpdated (addAll { w with tasks := ts }
            (mapValues ({ w with tasks := ts } : World).r.backends))) = some w' := hstep
        injection hstep with hw'
        subst hw'
        cases hstate : ({ w with tasks := ts } : World).r.state with
        | stopped =>
          rw [show ({ w with tasks := ts } : World).r.backends = [] from
            g1 (Or.inl hstate)]
          rw [show addAll { w with tasks := ts } (mapValues []) = { w with tasks := ts }
            from rfl]
          rw [emitUpdated_noop (Or.inl hstate)]
          exact inv_of_stopped hstate (g1 (Or.inl hstate))
        | starting =>
          rw [show ({ w with tasks := ts } : World).r.backends = [] from
            g1 (Or.inr hstate)]
          rw [show addAll { w with tasks := ts } (mapValues []) = { w with tasks := ts }
            from rfl]
          rw [emitUpdated_starting hstate, enterRunning_spec]
          exact inv_of_running rfl rfl
        | running =>
          have hall := addAll_run (mapValues ({ w with tasks := ts } : World).r.backends)
            hstate (g2 hstate)
          rw [emitUpdated_noop (Or.inr (Or.inl hall.1))]
          exact inv_of_running hall.1 hall.2
        | stopping => exact absurd hstate g3
        | failed => exact absurd hstate g4
      | resetTask l2 =>
        rw [runTaskR_reset] at hstep
        cases hstate : ({ w with tasks := ts } : World).r.state with
        | stopping => exact absurd hstate g3
        | failed => exact absurd hstate g4
        | stopped =>
          rw [show ({ w with tasks := ts } : World).r.backends = [] from
            g1 (Or.inl hstate)] at hstep
          rw [show removeAll { w with tasks := ts } (mapValues [])
            = { w with tasks := ts } from rfl] at hstep
          cases hld : loadBackendsR { w with tasks := ts } l2 with
          | error e => rw [hld] at hstep; simp [Except.toOption] at hstep
          | ok w2 =>
            rw [hld] at hstep
            obtain ⟨k1, k2, k3⟩ := loadBackendsR_inv hld
            have hbk2 : w2.r.backends = [] := by
              rw [k2 (by rw [hstate]; decide), g1 (Or.inl hstate)]
            replace hstep : (Except.ok (addAll w2 (mapValues w2.r.backends)) :
              Except ValidationError World).toOption = some w' := hstep
            rw [hbk2] at hstep
            replace hstep : some (addAll w2 (mapValues [])) = some w' := hstep
            rw [show addAll w2 (mapValues []) = w2 from rfl] at hstep
            injection hstep with hw'
            subst hw'
            exact inv_of_stopped (k1.trans hstate) hbk2
        | starting =>
          rw [show ({ w with tasks := ts } : World).r.backends = [] from
            g1 (Or.inr hstate)] at hstep
          rw [show removeAll { w with tasks := ts } (mapValues [])
            = { w with tasks := ts } from rfl] at hstep
          cases hld : loadBackendsR { w with tasks := ts } l2 with
          | error e => rw [hld] at hstep; simp [Except.toOption] at hstep
          | ok w2 =>
            rw [hld] at hstep
            obtain ⟨k1, k2, k3⟩ := loadBackendsR_inv hld
            have hbk2 : w2.r.backends = [] := by
              rw [k2 (by rw [hstate]; decide), g1 (Or.inr hstate)]
            replace hstep : (Except.ok (addAll w2 (mapValues w2.r.backends)) :
              Except ValidationError World).toOption = some w' := hstep
            rw [hbk2] at hstep
            replace hstep : some (addAll w2 (mapValues [])) = some w' := hstep
            rw [show addAll w2 (mapValues []) = w2 from rfl] at hstep
            injection hstep with hw'
            subst hw'
            exact inv_of_starting (k1.trans hstate) hbk2
        | running =>
          have hrem := removeAll_run (mapValues ({ w with tasks := ts } : World).r.backends)
            hstate (g2 hstate)
          cases hld : loadBackendsR (removeAll { w with tasks := ts }
              (mapValues ({ w with tasks := ts } : World).r.backends)) l2 with
          | error e => rw [hld] at hstep; simp [Except.toOption] at hstep
          | ok w2 =>
            rw [hld] at hstep
            obtain ⟨k1, k2, k3⟩ := loadBackendsR_inv hld
            have hst2 : w2.r.state = .running := by rw [k1, hrem.1]
            have hq2 : w2.r.queue = [] := k3 hrem.1 hrem.2
            have hall := addAll_run (mapValues w2.r.backends) hst2 hq2
            replace hstep : some (addAll w2 (mapValues w2.r.backends)) = some w' := hstep
            injection hstep with hw'
            subst hw'
            exact inv_of_running hall.1 hall.2

lemma runActs_preserves : ∀ {acts : List Act} {w w' : World},
    runActs w acts = some w' → (∀ a ∈ acts, a ≠ .stopA) →
    resolverInv w → resolverInv w' := by
  intro acts
  induction acts with
  | nil =>
    intro w w' h hns hinv
    unfold runActs at h
    injection h with h'
    subst h'
    exact hinv
  | cons a rest ih =>
    intro w w' h hns hinv
    unfold runActs at h
    cases hsa : stepA w a with
    | none => rw [hsa] at h; simp at h
    | some w1 =>
      rw [hsa] at h
      exact ih h (fun x hx => hns x (List.mem_cons_of_mem _ hx))
        (stepA_preserves_inv (hns a (List.mem_cons_self _ _)) hsa hinv)

/-- C3 counterexample: starting from a freshly constructed resolver, the
call sequence start; (scheduler turn); addBackend '127.0.0.1'; stop;
(scheduler turn); addBackend '127.0.0.1' reaches a state in which the key
of 127.0.0.1:80 is in the backends map — it was applied while running and
survives the stop — and is simultaneously queued as an `add` entry, so the
claimed disjointness invariant fails on a reachable state. -/
theorem claimC3_counterexample :
    ((mkResolver 80 []).toOption.bind (fun w0 =>
        runActs w0 [.startA, .taskA, .addA d127, .stopA, .taskA, .addA d127])).map
      (fun w => (mapMem w.r.backends backend127.key,
        w.r.queue.any (fun it =>
          decide (it.key = backend127.key) && decide (it.operation = Op.add))))
      = some (true, true) := by
  rfl

/-- C3 (amended): the queue/backends disjointness holds on every state
reachable by a sequence of `start`, `addBackend`, `removeBackend`,
`resetBackends` calls and scheduler turns in which `stop()` is never
invoked — before the first stop the map is empty until `running` is
entered and the queue is empty from then on.  After a stop the map retains
its entries while new mutations queue, and the invariant can fail. -/
theorem claimC3_disjoint_no_stop (dp : Int) (inits : List BackendInput)
    (acts : List Act) (w0 w : World)
    (hinit : mkResolver dp inits = .ok w0)
    (hrun : runActs w0 acts = some w)
    (hnostop : ∀ a ∈ acts, a ≠ .stopA) :
    queueMapDisjoint w := by
  have hinv0 : resolverInv w0 := by
    obtain ⟨k1, k2, _k3⟩ := loadBackendsR_inv (l := inits) hinit
    have hst : w0.r.state = .stopped := k1
    have hbk : w0.r.backends = [] := k2 (fun h => FsmState.noConfusion h)
    exact inv_of_stopped hst hbk
  exact inv_disjoint (runActs_preserves hrun hnostop hinv0)

/-- Resolver with one `add` operation queued before `start()`: the state the
witness run reaches. -/
def c3WitnessWorld : World :=
  { r := { state := .stopped, defaultPort := 80, backends := [],
           queue := [⟨backend127.key, .add, backend127⟩], lastError := none },
    tasks := [], trace := [] }

theorem claimC3_witness : queueMapDisjoint c3WitnessWorld :=
  claimC3_disjoint_no_stop 80 [] [.addA d127] wStopped c3WitnessWorld rfl (by rfl)
    (by decide)

end Cueball
